import Mathlib

/-!
Verification development for the `prometheus-write-example` repository.

The repository scrapes a text metric exposition back into structured
samples (`metricsToRemoteWrite`), validates and serializes them as a
protobuf `WriteRequest`, snappy-compresses the bytes, and POSTs them to a
Prometheus remote-write endpoint.  This file shallowly embeds those
operations and proves the behavioural properties claimed about them.
-/

namespace PromWrite

/-! ## JavaScript value model

Sample values and timestamps live in the JavaScript number world: a
number is either a finite value (modelled exactly as a rational; the
scraper only ever produces decimal values, for which IEEE rounding is the
only abstraction made) or `NaN` (what `parseFloat` returns on input with
no leading numeric prefix).  Label fields are JS values that may be
strings or numbers; `protobufjs`'s `verify` discriminates on exactly
that. -/

inductive JSNum where
  | num (q : ℚ)
  | nan
deriving DecidableEq, Repr

inductive JSVal where
  | vstr (s : String)
  | vnum (n : JSNum)
deriving DecidableEq, Repr

/-- A `Label` message value as built by the scraper: `{ name, value }`. -/
structure JLabel where
  name : JSVal
  value : JSVal
deriving DecidableEq, Repr

/-- A `Sample` message value as built by the scraper:
`{ value, timestamp }`. -/
structure JSample where
  value : JSVal
  timestamp : JSVal
deriving DecidableEq, Repr

/-- A `TimeSeries` message value: `{ labels, samples }`. -/
structure JTimeSeries where
  labels : List JLabel
  samples : List JSample
deriving DecidableEq, Repr

/-- A `WriteRequest` message value: `{ timeseries }`. -/
structure JWriteRequest where
  timeseries : List JTimeSeries
deriving DecidableEq, Repr

/-! ## Character classes of the scrape regexes

`metricsToRemoteWrite` matches each line against
`/^(\w+)(\{[^}]*\})?\s+([0-9.]+)/` and each label pair against
`/(\w+)="([^"]*)"/g`.  JavaScript `\w` is ASCII `[A-Za-z0-9_]`; `\s` is
whitespace (modelled by its ASCII members, the only ones a text
exposition can contain). -/

def isWordChar (c : Char) : Bool :=
  c.isAlpha || c.isDigit || c = '_'

def isSpaceChar (c : Char) : Bool :=
  c = ' ' || c = '\t' || c = '\n' || c = '\r' || c = '\x0b' || c = '\x0c'

def isValChar (c : Char) : Bool :=
  c.isDigit || c = '.'

/-! ## `parseFloat` on the captured value

The value capture group is `[0-9.]+`, so the string handed to
`parseFloat` consists of digits and dots only.  On such input JavaScript
`parseFloat` reads an integer part, optionally a dot and a fractional
part, and stops at the first character that cannot continue the number
(`parseFloat("1.2.3") = 1.2`); if no digit is read at all the result is
`NaN` (`parseFloat("...") = NaN`, `parseFloat(".5") = 0.5`). -/

/-- Numeric value of a digit string, most significant first. -/
def digitsVal (cs : List Char) : ℕ :=
  cs.foldl (fun a c => a * 10 + (c.toNat - 48)) 0

/-- Model of `parseFloat`, restricted to strings over `[0-9.]` (the only strings
the scraper feeds it). -/
def parseFloatDec (cs : List Char) : JSNum :=
  let ip := cs.takeWhile Char.isDigit
  match cs.dropWhile Char.isDigit with
  | c :: r2 =>
      if c = '.' then
        let fp := r2.takeWhile Char.isDigit
        if ip.isEmpty && fp.isEmpty then .nan
        else .num ((digitsVal ip : ℚ) + (digitsVal fp : ℚ) / (10 : ℚ) ^ fp.length)
      else if ip.isEmpty then .nan else .num (digitsVal ip)
  | [] => if ip.isEmpty then .nan else .num (digitsVal ip)

/-! ## Label-pair scan: `labelsStr.match(/(\w+)="([^"]*)"/g)`

A global regex match scans left to right: at each start position the
engine attempts the pattern (`\w+` greedy, then `="`, then `[^"]*` up to
the next quote, then `"`); on failure the start advances by one
character, on success the scan resumes after the match.  Within one
attempt, backtracking `\w+` to a shorter prefix only ever exposes another
word character, which can never match `=`, so taking the maximal word
run is faithful. -/

/-- One match attempt of `(\w+)="([^"]*)"` anchored at the head of `cs`:
returns the two capture groups and the remainder after the match. -/
def tryPairAt (cs : List Char) : Option (List Char × List Char × List Char) :=
  let n := cs.takeWhile isWordChar
  if n.isEmpty then none else
  match cs.dropWhile isWordChar with
  | e :: q :: r =>
      if e = '=' ∧ q = '"' then
        let v := r.takeWhile (fun c => !(c = '"'))
        match r.dropWhile (fun c => !(c = '"')) with
        | q2 :: r2 => if q2 = '"' then some (n, v, r2) else none
        | [] => none
      else none
  | _ => none

/-- The global scan, fuelled by the input length (each step consumes at
least one character). -/
def findPairsGo : ℕ → List Char → List (List Char × List Char)
  | 0, _ => []
  | _ + 1, [] => []
  | f + 1, c :: rest =>
      match tryPairAt (c :: rest) with
      | some (n, v, r) => (n, v) :: findPairsGo f r
      | none => findPairsGo f rest

/-- All matches of `(\w+)="([^"]*)"` in `cs`, in scan order. -/
def findPairs (cs : List Char) : List (List Char × List Char) :=
  findPairsGo cs.length cs

/-! ## The line match: `line.match(/^(\w+)(\{[^}]*\})?\s+([0-9.]+)/)`

The regex is anchored at the start only.  `\w+` can be taken maximal
(shortening it exposes a word character, which matches neither `\{` nor
`\s`).  The optional brace group matches iff the character after the
name is `{` and a closing `}` exists; an unclosed `{` makes the whole
match fail (the empty alternative of the optional group leaves `\s+`
facing `{`).  `\s+` is then a nonempty maximal space run and
`([0-9.]+)` a nonempty maximal run of digits and dots; anything after it
is ignored. -/

/-- Capture groups of the line regex: metric name, optional label block
(braces included, as group 2 captures them), and value. -/
def lineMatch (cs : List Char) :
    Option (List Char × Option (List Char) × List Char) :=
  let name := cs.takeWhile isWordChar
  if name.isEmpty then none else
  let r1 := cs.dropWhile isWordChar
  let (g2, r2) : Option (List Char) × List Char :=
    match r1 with
    | c :: r =>
        if c = '{' then
          match r.dropWhile (fun d => !(d = '}')) with
          | d :: rest =>
              if d = '}' then
                (some ('{' :: (r.takeWhile (fun d => !(d = '}')) ++ ['}'])), rest)
              else (none, r1)
          | [] => (none, r1)
        else (none, r1)
    | [] => (none, r1)
  if (r2.takeWhile isSpaceChar).isEmpty then none else
  let r3 := r2.dropWhile isSpaceChar
  let v := r3.takeWhile isValChar
  if v.isEmpty then none else
  some (name, g2, v)

/-! ## One loop iteration of `metricsToRemoteWrite`

For a matched line the code synthesizes `__name__` first, then pushes
each scanned pair subject to the JS truthiness test
`if (labelName && labelValue)` — an empty string is falsy, so a pair
whose value is the empty string is dropped — and builds one sample from
`parseFloat(value)` and the shared capture timestamp. -/

/-- The labels pushed for one matched line. -/
def scrapeLabels (name : List Char) (labelsStr : Option (List Char)) : List JLabel :=
  ⟨.vstr "__name__", .vstr (String.mk name)⟩ ::
    (match labelsStr with
     | none => []
     | some block =>
         (findPairs block).filterMap (fun p =>
           if String.mk p.1 ≠ "" ∧ String.mk p.2 ≠ "" then
             some ⟨.vstr (String.mk p.1), .vstr (String.mk p.2)⟩
           else none))

/-- Processing of a single line of the exposition text: `none` when the
line regex does not match (or the matched name/value are empty, the
code's redundant `if (name && value)` re-check), otherwise the
`TimeSeries` pushed for that line. -/
def scrapeLine (ts : ℤ) (cs : List Char) : Option JTimeSeries :=
  match lineMatch cs with
  | none => none
  | some (name, labelsStr, value) =>
      if String.mk name ≠ "" ∧ String.mk value ≠ "" then
        some ⟨scrapeLabels name labelsStr,
              [⟨.vnum (parseFloatDec value), .vnum (.num (ts : ℚ))⟩]⟩
      else none

/-! ## Line filtering and the full scrape

`metrics.split('\n').filter(line => line.trim() && !line.startsWith('#'))`:
a line is kept when it contains a non-whitespace character and does not
begin with `#`. -/

/-- The filter `line.trim() && !line.startsWith('#')`. -/
def goodLine (cs : List Char) : Bool :=
  (cs.any (fun c => !isSpaceChar c)) &&
    (match cs with
     | c :: _ => !(c = '#')
     | [] => true)

/-- The split `text.split('\n')`. -/
def splitLines (cs : List Char) : List (List Char) :=
  cs.foldr (fun c r =>
    match r with
    | [] => [[c]]
    | l :: ls => if c = '\n' then [] :: l :: ls else (c :: l) :: ls) [[]]

/-- The scrape over an already-split list of lines: filter, then one
optional `TimeSeries` per line. -/
def scrapeLines (ts : ℤ) (ls : List (List Char)) : JWriteRequest :=
  ⟨(ls.filter goodLine).filterMap (scrapeLine ts)⟩

/-- The text-to-`WriteRequest` portion of `metricsToRemoteWrite`: the
exposition text and the shared `Date.now()` capture timestamp in, the
assembled `writeRequest` object out. -/
def metricsToRemoteWrite (ts : ℤ) (text : List Char) : JWriteRequest :=
  scrapeLines ts (splitLines text)

/-! ## `WriteRequest.verify` (protobufjs)

The reflective verifier generated by protobufjs for the schema declared
in the source checks, per message, that every present field has the
declared type — `string` for `Label.name`/`Label.value`, `number` for
`Sample.value` (NaN is a JS number), integer for `Sample.timestamp` —
and that repeated fields are arrays.  proto3 has no required fields, so
an empty `labels` or `samples` array passes.  The first failing check
yields the error string returned to `metricsToRemoteWrite`. -/

def isStringVal : JSVal → Bool
  | .vstr _ => true
  | _ => false

def isNumberVal : JSVal → Bool
  | .vnum _ => true
  | _ => false

/-- The `$util.isInteger` check: a finite number with no fractional part. -/
def isIntegerVal : JSVal → Bool
  | .vnum (.num q) => q.den = 1
  | _ => false

/-- First error produced by a per-element verifier, in element order. -/
def firstErr (f : α → Option String) : List α → Option String
  | [] => none
  | x :: xs =>
      match f x with
      | some e => some e
      | none => firstErr f xs

def verifyLabel (l : JLabel) : Option String :=
  if !isStringVal l.name then some "name: string expected"
  else if !isStringVal l.value then some "value: string expected"
  else none

def verifySample (s : JSample) : Option String :=
  if !isNumberVal s.value then some "value: number expected"
  else if !isIntegerVal s.timestamp then some "timestamp: integer expected"
  else none

def verifyTimeSeries (t : JTimeSeries) : Option String :=
  match firstErr verifyLabel t.labels with
  | some e => some e
  | none => firstErr verifySample t.samples

def verifyWriteRequest (w : JWriteRequest) : Option String :=
  firstErr verifyTimeSeries w.timeseries

/-- The validate-then-encode step of `metricsToRemoteWrite`: a non-null
`verify` result is thrown (`Protobuf validation failed: …`); otherwise
encoding proceeds. -/
def encodeStep (w : JWriteRequest) : Except String JWriteRequest :=
  match verifyWriteRequest w with
  | some errMsg => .error ("Protobuf validation failed: " ++ errMsg)
  | none => .ok w

/-! ## Write client control flow (`sendMetricsToPrometheus`, part_004)

The send wraps encode-plus-POST in one `try`/`catch`: a validation error
thrown by `metricsToRemoteWrite` is caught before any request is made;
otherwise exactly one `axios.post` is issued, and any axios failure
(non-2xx status, connection error, timeout) is caught and logged.  In
every case the function returns normally. -/

/-- An HTTP request as configured at a call site. -/
structure HttpRequest where
  method : String
  url : String
  headers : List (String × String)
  timeoutMs : ℕ
deriving DecidableEq, Repr

/-- The single request `sendMetricsToPrometheus` builds. -/
def writeRequestConfig (baseUrl : String) : HttpRequest :=
  { method := "POST"
    url := baseUrl ++ "/api/v1/write"
    headers := [("Content-Type", "application/x-protobuf"),
                ("Content-Encoding", "snappy"),
                ("X-Prometheus-Remote-Write-Version", "0.1.0")]
    timeoutMs := 5000 }

/-- Outcome of the encode step, abstracting over the register contents
and the snappy call. -/
inductive EncodeOutcome where
  | ok
  | throws (msg : String)
deriving DecidableEq, Repr

/-- Outcome of one HTTP transport attempt.  axios resolves only for 2xx
statuses and rejects otherwise (non-2xx response, connection failure, or
the 5000 ms timeout firing). -/
inductive Transport where
  | success (status : ℕ)
  | httpError (status : ℕ)
  | netError
  | timeout
deriving DecidableEq, Repr

/-- What a call to the write path did: the requests it issued (in
order), whether it logged a failure, and whether it returned normally
(as opposed to propagating an exception). -/
structure SendTrace where
  requests : List HttpRequest
  errorLogged : Bool
  returnedNormally : Bool
deriving DecidableEq, Repr

/-- Test for `Transport.success`. -/
def Transport.isSuccess : Transport → Bool
  | .success _ => true
  | _ => false

/-- Model of `sendMetricsToPrometheus` (full path, part_004): try encode, POST
once, catch and log any failure. -/
def sendMetricsToPrometheus (baseUrl : String) (enc : EncodeOutcome)
    (tr : Transport) : SendTrace :=
  match enc with
  | .throws _ => ⟨[], true, true⟩
  | .ok => ⟨[writeRequestConfig baseUrl], !tr.isSuccess, true⟩

/-- Model of `generateAndSendMetrics` (full path): update the store, then send;
nothing catches around it because the send never throws. -/
def generateAndSendMetrics (baseUrl : String) (enc : EncodeOutcome)
    (tr : Transport) : SendTrace :=
  sendMetricsToPrometheus baseUrl enc tr

/-- Outcome of the `pushMetrics`/`pushTimeseries` helper call on the
simplified path. -/
inductive PushOutcome where
  | ok
  | throws (msg : String)
deriving DecidableEq, Repr

/-- Model of `sendMetricsToPrometheus` (simplified path, simple-client.ts): one
helper push inside `try`/`catch`; the helper makes at most one HTTP
attempt. -/
def simpleSendMetricsToPrometheus (push : PushOutcome) : SendTrace :=
  match push with
  | .ok => ⟨[], false, true⟩
  | .throws _ => ⟨[], true, true⟩

/-- Model of `generateAndSendMetrics` (simplified path). -/
def simpleGenerateAndSendMetrics (push : PushOutcome) : SendTrace :=
  simpleSendMetricsToPrometheus push

/-! ## Health check and run control flow (part_001 `main`)

`getPrometheusStatus` GETs the health endpoint; axios resolves only for 2xx, so
a non-2xx status or an unreachable server lands in the `catch` and the
function returns `false`.  `main` exits with code 1 before any write
when the check fails; otherwise it sends, waits, queries, and runs to
completion — every later failure is caught inside the helpers, so the
process exits 0. -/

inductive HealthOutcome where
  | healthy (status : ℕ)
  | non2xx (status : ℕ)
  | unreachable
deriving DecidableEq, Repr

/-- Model of `getPrometheusStatus`: `true` exactly when the GET resolved. -/
def getPrometheusStatus : HealthOutcome → Bool
  | .healthy _ => true
  | _ => false

/-- Observable outcome of one demo run. -/
structure RunTrace where
  exitCode : ℕ
  writeAttempted : Bool
deriving DecidableEq, Repr

/-- Model of `main` (part_001): health gate, then fire-and-forget write, then
queries; the send and query helpers never throw, so the `.catch` that
would exit 1 is never reached after the gate. -/
def mainRun (health : HealthOutcome) (enc : EncodeOutcome)
    (tr : Transport) : RunTrace :=
  if getPrometheusStatus health then
    let _send := generateAndSendMetrics "http://localhost:9090" enc tr
    ⟨0, true⟩
  else
    ⟨1, false⟩

/-! ## Query client (part_000 `queryPrometheus`)

The query GET has a 10 s timeout; a resolved response is rendered from
its JSON: `status == "success"` with a nonempty `result` lists the
series, an empty `result` prints the "No data found" notice, any other
status prints "Query failed"; a rejected request is caught and logged.
`main` then runs its fixed query list sequentially — since
`queryPrometheus` swallows its own errors, every query runs. -/

/-- One rendered query result entry (`metric` label map and value). -/
structure QResult where
  metric : List (String × String)
  value : ℚ
deriving DecidableEq, Repr

/-- Outcome of the HTTP GET for one query. -/
inductive QueryHttp where
  | response (status : String) (error : Option String) (result : List QResult)
  | failure (msg : String)
deriving DecidableEq, Repr

/-- What `queryPrometheus` reports for one query. -/
inductive QueryReport where
  | foundData (n : ℕ)
  | noData
  | queryFailed (msg : String)
  | requestError (msg : String)
deriving DecidableEq, Repr

/-- Model of `queryPrometheus` on the outcome of its single GET. -/
def queryPrometheus : QueryHttp → QueryReport
  | .failure msg => .requestError msg
  | .response status err result =>
      if status = "success" then
        if result.length > 0 then .foundData result.length
        else .noData
      else .queryFailed (err.getD "Unknown error")

/-- The sequential query loop of `main` (part_000): one report per
query, each produced regardless of the previous outcomes. -/
def runQueries (outcomes : List QueryHttp) : List QueryReport :=
  outcomes.map queryPrometheus

/-! ## Wire level: protobuf serialization and snappy compression

`metricsToRemoteWrite` finishes with `WriteRequest.encode(message).finish()`
followed by `snappy.compress(buffer)`.  This section embeds the proto3
wire format of the schema declared in the source

```
WriteRequest { repeated TimeSeries timeseries = 1 }
TimeSeries   { repeated Label labels = 1; repeated Sample samples = 2 }
Label        { string name = 1; string value = 2 }
Sample       { double value = 1; int64 timestamp = 2 }
```

at the byte level: strings are carried as their UTF-8 byte sequences,
doubles as their 64-bit IEEE-754 bit patterns (two doubles are identical
exactly when their bit patterns are), and `int64` as two's complement.
protobufjs writes every field that is set on the message object (the
scraper sets all of them), and its decoder starts from defaults, appends
repeated fields in order, and skips unknown fields by wire type. -/

namespace Wire

/-- A `Label` on the wire: UTF-8 bytes of name and value. -/
structure WLabel where
  name : List ℕ
  value : List ℕ
deriving DecidableEq, Repr

/-- A `Sample` on the wire: the double's bit pattern and the `int64`
timestamp. -/
structure WSample where
  value : ℕ
  timestamp : ℤ
deriving DecidableEq, Repr

structure WTimeSeries where
  labels : List WLabel
  samples : List WSample
deriving DecidableEq, Repr

structure WWriteRequest where
  timeseries : List WTimeSeries
deriving DecidableEq, Repr

/-- Byte sequences are lists of values below 256. -/
def WFBytes (bs : List ℕ) : Prop := ∀ b ∈ bs, b < 256

def WFLabel (l : WLabel) : Prop := WFBytes l.name ∧ WFBytes l.value

/-- A sample is well formed when its bit pattern fits 64 bits and its
timestamp fits `int64` (what `verify` admits as a `Long`). -/
def WFSample (s : WSample) : Prop :=
  s.value < 2 ^ 64 ∧ -2 ^ 63 ≤ s.timestamp ∧ s.timestamp < 2 ^ 63

def WFTimeSeries (t : WTimeSeries) : Prop :=
  (∀ l ∈ t.labels, WFLabel l) ∧ ∀ s ∈ t.samples, WFSample s

/-- Well-formedness of a whole request: the typed counterpart of
passing `WriteRequest.verify`. -/
def WFWriteRequest (w : WWriteRequest) : Prop :=
  ∀ t ∈ w.timeseries, WFTimeSeries t

/-- Little-endian base-128 encoding, fuelled (`n + 1` groups always
suffice, making the encoding total and exact for every `n`). -/
def varintGo : ℕ → ℕ → List ℕ
  | 0, _ => []
  | f + 1, n => if n < 128 then [n] else (n % 128 + 128) :: varintGo f (n / 128)

/-- LEB128 encoding of `n`. -/
def varint (n : ℕ) : List ℕ :=
  varintGo (n + 1) n

/-- LEB128 decoding: value and remaining bytes. -/
def decVarint : List ℕ → Option (ℕ × List ℕ)
  | [] => none
  | b :: rest =>
      if b < 128 then some (b, rest)
      else
        match decVarint rest with
        | some (v, r) => some (b - 128 + 128 * v, r)
        | none => none

/-- Read exactly `k` bytes. -/
def readN (k : ℕ) (bs : List ℕ) : Option (List ℕ × List ℕ) :=
  if k ≤ bs.length then some (bs.take k, bs.drop k) else none

/-- Little-endian value of a byte sequence. -/
def leVal (bs : List ℕ) : ℕ :=
  bs.foldr (fun b acc => b + 256 * acc) 0

/-- The eight little-endian bytes of a 64-bit value. -/
def fixed64 (n : ℕ) : List ℕ :=
  [n % 256, n / 256 % 256, n / 65536 % 256, n / 16777216 % 256,
   n / 4294967296 % 256, n / 1099511627776 % 256,
   n / 281474976710656 % 256, n / 72057594037927936 % 256]

/-- Reading a varint as `int64`: reduce to 64 bits, interpret the top
bit as the sign. -/
def interpInt64 (n : ℕ) : ℤ :=
  if n % 2 ^ 64 < 2 ^ 63 then ((n % 2 ^ 64 : ℕ) : ℤ)
  else ((n % 2 ^ 64 : ℕ) : ℤ) - 2 ^ 64

/-- The `int64` wire value of a timestamp: its two's complement
representative in `[0, 2^64)`. -/
def int64Wire (t : ℤ) : ℕ :=
  (t % (2 ^ 64 : ℤ)).toNat

/-- Encoded `Label` body: field 1 (`name`, key `0x0A`) then field 2
(`value`, key `0x12`), both length-delimited. -/
def encLabel (l : WLabel) : List ℕ :=
  [10] ++ varint l.name.length ++ l.name ++
    [18] ++ varint l.value.length ++ l.value

/-- Encoded `Sample` body: field 1 (`value`, key `0x09`, eight bytes)
then field 2 (`timestamp`, key `0x10`, varint). -/
def encSample (s : WSample) : List ℕ :=
  [9] ++ fixed64 s.value ++ [16] ++ varint (int64Wire s.timestamp)

/-- One `labels` entry inside a `TimeSeries`. -/
def encLabelField (l : WLabel) : List ℕ :=
  [10] ++ varint (encLabel l).length ++ encLabel l

/-- One `samples` entry inside a `TimeSeries`. -/
def encSampleField (s : WSample) : List ℕ :=
  [18] ++ varint (encSample s).length ++ encSample s

/-- Encoded `TimeSeries` body: labels in order, then samples in order. -/
def encTimeSeries (t : WTimeSeries) : List ℕ :=
  (t.labels.map encLabelField).flatten ++ (t.samples.map encSampleField).flatten

/-- One `timeseries` entry inside a `WriteRequest`. -/
def encTimeSeriesField (t : WTimeSeries) : List ℕ :=
  [10] ++ varint (encTimeSeries t).length ++ encTimeSeries t

/-- Model of `WriteRequest.encode(message).finish()`: the timeseries in input
order. -/
def encWriteRequest (w : WWriteRequest) : List ℕ :=
  (w.timeseries.map encTimeSeriesField).flatten

/-- Skip one unknown field of the given wire type. -/
def skipField (wt : ℕ) (bs : List ℕ) : Option (List ℕ) :=
  if wt = 0 then
    match decVarint bs with
    | some (_, r) => some r
    | none => none
  else if wt = 1 then
    match readN 8 bs with
    | some (_, r) => some r
    | none => none
  else if wt = 2 then
    match decVarint bs with
    | some (len, r) =>
        match readN len r with
        | some (_, r2) => some r2
        | none => none
    | none => none
  else if wt = 5 then
    match readN 4 bs with
    | some (_, r) => some r
    | none => none
  else none

/-- Field loop of the `Label` decoder: scalar fields overwrite. -/
def decLabelGo : ℕ → List ℕ → List ℕ → List ℕ → Option WLabel
  | 0, _, _, _ => none
  | _ + 1, nm, vl, [] => some ⟨nm, vl⟩
  | f + 1, nm, vl, b :: bs =>
      match decVarint (b :: bs) with
      | none => none
      | some (tag, rest) =>
          if tag = 10 then
            match decVarint rest with
            | some (len, r2) =>
                match readN len r2 with
                | some (field, r3) => decLabelGo f field vl r3
                | none => none
            | none => none
          else if tag = 18 then
            match decVarint rest with
            | some (len, r2) =>
                match readN len r2 with
                | some (field, r3) => decLabelGo f nm field r3
                | none => none
            | none => none
          else
            match skipField (tag % 8) rest with
            | some r => decLabelGo f nm vl r
            | none => none

/-- Decode a `Label` from its body bytes. -/
def decLabel (bs : List ℕ) : Option WLabel :=
  decLabelGo (bs.length + 1) [] [] bs

/-- Field loop of the `Sample` decoder. -/
def decSampleGo : ℕ → ℕ → ℕ → List ℕ → Option WSample
  | 0, _, _, _ => none
  | _ + 1, v, t, [] => some ⟨v, interpInt64 t⟩
  | f + 1, v, t, b :: bs =>
      match decVarint (b :: bs) with
      | none => none
      | some (tag, rest) =>
          if tag = 9 then
            match readN 8 rest with
            | some (field, r) => decSampleGo f (leVal field) t r
            | none => none
          else if tag = 16 then
            match decVarint rest with
            | some (n, r) => decSampleGo f v n r
            | none => none
          else
            match skipField (tag % 8) rest with
            | some r => decSampleGo f v t r
            | none => none

/-- Decode a `Sample` from its body bytes. -/
def decSample (bs : List ℕ) : Option WSample :=
  decSampleGo (bs.length + 1) 0 0 bs

/-- Field loop of the `TimeSeries` decoder: repeated fields append. -/
def decTimeSeriesGo :
    ℕ → List WLabel → List WSample → List ℕ → Option WTimeSeries
  | 0, _, _, _ => none
  | _ + 1, ls, ss, [] => some ⟨ls, ss⟩
  | f + 1, ls, ss, b :: bs =>
      match decVarint (b :: bs) with
      | none => none
      | some (tag, rest) =>
          if tag = 10 then
            match decVarint rest with
            | some (len, r2) =>
                match readN len r2 with
                | some (field, r3) =>
                    match decLabel field with
                    | some l => decTimeSeriesGo f (ls ++ [l]) ss r3
                    | none => none
                | none => none
            | none => none
          else if tag = 18 then
            match decVarint rest with
            | some (len, r2) =>
                match readN len r2 with
                | some (field, r3) =>
                    match decSample field with
                    | some s => decTimeSeriesGo f ls (ss ++ [s]) r3
                    | none => none
                | none => none
            | none => none
          else
            match skipField (tag % 8) rest with
            | some r => decTimeSeriesGo f ls ss r
            | none => none

/-- Decode a `TimeSeries` from its body bytes. -/
def decTimeSeries (bs : List ℕ) : Option WTimeSeries :=
  decTimeSeriesGo (bs.length + 1) [] [] bs

/-- Field loop of the `WriteRequest` decoder. -/
def decWriteRequestGo : ℕ → List WTimeSeries → List ℕ → Option WWriteRequest
  | 0, _, _ => none
  | _ + 1, ts, [] => some ⟨ts⟩
  | f + 1, ts, b :: bs =>
      match decVarint (b :: bs) with
      | none => none
      | some (tag, rest) =>
          if tag = 10 then
            match decVarint rest with
            | some (len, r2) =>
                match readN len r2 with
                | some (field, r3) =>
                    match decTimeSeries field with
                    | some t => decWriteRequestGo f (ts ++ [t]) r3
                    | none => none
                | none => none
            | none => none
          else
            match skipField (tag % 8) rest with
            | some r => decWriteRequestGo f ts r
            | none => none

/-- Deserialize a `WriteRequest` from wire bytes. -/
def decWriteRequest (bs : List ℕ) : Option WWriteRequest :=
  decWriteRequestGo (bs.length + 1) [] bs

/-! ### Snappy block format

Modelled from the spec: the `snappy` native library called by
`metricsToRemoteWrite` is not part of this repository's sources, so its
block format is embedded here from its published description.  A
compressed block is the uncompressed length as a varint followed by
elements; an element is a literal (tag low bits `00`, length `len-1` in
the tag's six upper bits when `len ≤ 60`, otherwise in 1–4 extra bytes)
or a back-reference copy (tag low bits `01`, `10`, `11`).  The
decompressor below implements the full element set and the final length
check; the compressor emits literal elements of at most 60 bytes, a
format-valid encoding every snappy decoder accepts. -/

/-- Append `len` bytes copied from `off` back in the output, byte by
byte (so overlapping copies repeat, as the format requires). -/
def snappyCopy : ℕ → List ℕ → ℕ → List ℕ
  | 0, out, _ => out
  | k + 1, out, off => snappyCopy k (out ++ [out.getD (out.length - off) 0]) off

/-- Split the input into literal elements of at most 60 bytes each. -/
def snappyLitChunks : ℕ → List ℕ → List ℕ
  | 0, _ => []
  | f + 1, bs =>
      match bs with
      | [] => []
      | _ :: _ =>
          (min 60 bs.length - 1) * 4 :: (bs.take 60 ++ snappyLitChunks f (bs.drop 60))

/-- Model of `snappy.compress`: length preamble, then the elements. -/
def snappyCompress (bs : List ℕ) : List ℕ :=
  varint bs.length ++ snappyLitChunks bs.length bs

/-- Element loop of the decompressor. -/
def snappyUncompressGo : ℕ → List ℕ → List ℕ → Option (List ℕ)
  | 0, _, _ => none
  | _ + 1, out, [] => some out
  | f + 1, out, tag :: rest =>
      if tag % 4 = 0 then
        -- literal
        let l6 := tag / 4
        if l6 < 60 then
          match readN (l6 + 1) rest with
          | some (lit, r) => snappyUncompressGo f (out ++ lit) r
          | none => none
        else
          match readN (l6 - 59) rest with
          | some (lenBytes, r2) =>
              match readN (leVal lenBytes + 1) r2 with
              | some (lit, r) => snappyUncompressGo f (out ++ lit) r
              | none => none
          | none => none
      else if tag % 4 = 1 then
        match rest with
        | b :: r =>
            let len := tag / 4 % 8 + 4
            let off := tag / 32 * 256 + b
            if off = 0 ∨ out.length < off then none
            else snappyUncompressGo f (snappyCopy len out off) r
        | [] => none
      else if tag % 4 = 2 then
        match readN 2 rest with
        | some (offBytes, r) =>
            let off := leVal offBytes
            if off = 0 ∨ out.length < off then none
            else snappyUncompressGo f (snappyCopy (tag / 4 + 1) out off) r
        | none => none
      else
        match readN 4 rest with
        | some (offBytes, r) =>
            let off := leVal offBytes
            if off = 0 ∨ out.length < off then none
            else snappyUncompressGo f (snappyCopy (tag / 4 + 1) out off) r
        | none => none

/-- Model of `snappy.uncompress`: decode the elements and check the produced
length against the preamble. -/
def snappyUncompress (bs : List ℕ) : Option (List ℕ) :=
  match decVarint bs with
  | some (n, rest) =>
      match snappyUncompressGo (rest.length + 1) [] rest with
      | some out => if out.length = n then some out else none
      | none => none
  | none => none

/-- The serialize-then-compress tail of `metricsToRemoteWrite`. -/
def remoteWriteEncode (w : WWriteRequest) : List ℕ :=
  snappyCompress (encWriteRequest w)

/-- The receiving side of the round trip: snappy-decompress, then
protobuf-deserialize. -/
def remoteWriteDecode (bs : List ℕ) : Option WWriteRequest :=
  match snappyUncompress bs with
  | some raw => decWriteRequest raw
  | none => none

end Wire

/-- A rendered `name="value"` pair, as it appears on an exposition line. -/
def renderPair (p : List Char × List Char) : List Char :=
  p.1 ++ '=' :: '"' :: (p.2 ++ ['"'])

/-- Comma-separated pairs, as inside a label block. -/
def renderPairs : List (List Char × List Char) → List Char
  | [] => []
  | p :: ps => renderPair p ++ (if ps.isEmpty then [] else ',' :: renderPairs ps)

/-- A line of the spec grammar `name{p1="v1",…} value` (label block
present exactly when `ps` is). -/
def mkLine (name : List Char) (ps : Option (List (List Char × List Char)))
    (v : List Char) : List Char :=
  name ++
    (match ps with
     | none => []
     | some l => '{' :: (renderPairs l ++ ['}'])) ++ ' ' :: v

/-- Grammar-side well-formedness of label pairs: word-character names,
values free of the quote and brace delimiters. -/
def WFPairs (l : List (List Char × List Char)) : Prop :=
  ∀ p ∈ l, p.1 ≠ [] ∧ (∀ c ∈ p.1, isWordChar c = true) ∧
    ∀ c ∈ p.2, c ≠ '"' ∧ c ≠ '}'

/-- Strict comma-separated `name="value"` pair list, for the spec-side
grammar. -/
def labelPairsOkGo : ℕ → List Char → Bool
  | 0, _ => false
  | f + 1, cs =>
      match tryPairAt cs with
      | some (_, _, r) =>
          match r with
          | [] => true
          | c :: r2 => if c = ',' then labelPairsOkGo f r2 else false
      | none => false

def labelPairsOk (cs : List Char) : Bool :=
  cs.isEmpty || labelPairsOkGo cs.length cs

/-- A non-negative decimal numeral: digits with at most one dot and no
exponent or sign. -/
def isDecimalValue (cs : List Char) : Bool :=
  !cs.isEmpty && cs.all (fun c => c.isDigit || c = '.') &&
    (cs.count '.' ≤ 1) && cs.any Char.isDigit

/-- The spec's line grammar (from its words, for comparison with the
scraper): `metric_name{label="value",…} numeric_value`, label block
optional, the value a non-negative decimal filling the rest of the
line. -/
def specGrammarLine (cs : List Char) : Bool :=
  let name := cs.takeWhile isWordChar
  let r1 := cs.dropWhile isWordChar
  let (blockOk, r2) : Bool × List Char :=
    match r1 with
    | c :: r =>
        if c = '{' then
          match r.dropWhile (fun d => !(d = '}')) with
          | d :: rest =>
              if d = '}' then
                (labelPairsOk (r.takeWhile (fun d => !(d = '}'))), rest)
              else (false, r1)
          | [] => (false, r1)
        else (true, r1)
    | [] => (true, r1)
  let sp := r2.takeWhile isSpaceChar
  let v := r2.dropWhile isSpaceChar
  !name.isEmpty && blockOk && !sp.isEmpty && isDecimalValue v

/-- The conjunction of all type checks `WriteRequest.verify` makes. -/
def typesOk (w : JWriteRequest) : Bool :=
  w.timeseries.all fun t =>
    (t.labels.all fun l => isStringVal l.name && isStringVal l.value) &&
    (t.samples.all fun s => isNumberVal s.value && isIntegerVal s.timestamp)

/-- Concrete request for evaluating the wire round trip: two series,
one with a `__name__` label and a sample carrying the bits of `42.0` at
a realistic timestamp, one empty. -/
def wireWitness : Wire.WWriteRequest :=
  ⟨[⟨[⟨[95, 95, 110, 97, 109, 101, 95, 95], [100, 101, 109, 111]⟩],
     [⟨4631107791820423168, 1700000000000⟩]⟩,
    ⟨[], []⟩]⟩


/-! ## Round-trip lemmas for the wire level -/

namespace Wire

theorem varintGo_succ (f n : ℕ) :
    varintGo (f + 1) n = if n < 128 then [n] else (n % 128 + 128) :: varintGo f (n / 128) :=
  rfl

theorem decVarint_cons (b : ℕ) (rest : List ℕ) :
    decVarint (b :: rest) =
      if b < 128 then some (b, rest)
      else
        match decVarint rest with
        | some (v, r) => some (b - 128 + 128 * v, r)
        | none => none :=
  rfl

theorem decVarint_varintGo :
    ∀ (f n : ℕ) (rest : List ℕ), n < 128 ^ (f + 1) →
      decVarint (varintGo (f + 1) n ++ rest) = some (n, rest) := by
  intro f
  induction f with
  | zero =>
      intro n rest h
      have h' : n < 128 := by norm_num at h; exact h
      rw [varintGo_succ, if_pos h', List.cons_append, List.nil_append,
        decVarint_cons, if_pos h']
  | succ f ih =>
      intro n rest h
      by_cases hn : n < 128
      · rw [varintGo_succ, if_pos hn, List.cons_append, List.nil_append,
          decVarint_cons, if_pos hn]
      · have h2 : n / 128 < 128 ^ (f + 1) := by
          rw [Nat.div_lt_iff_lt_mul (by norm_num)]
          calc n < 128 ^ (f + 1 + 1) := h
            _ = 128 ^ (f + 1) * 128 := by ring
        have hb : ¬ (n % 128 + 128 < 128) := by omega
        rw [varintGo_succ (f + 1) n, if_neg hn, List.cons_append, decVarint_cons,
          if_neg hb, ih (n / 128) rest h2]
        simp only [Option.some.injEq, Prod.mk.injEq, and_true]
        omega

theorem decVarint_varint (n : ℕ) (rest : List ℕ) :
    decVarint (varint n ++ rest) = some (n, rest) := by
  have h : n < 128 ^ (n + 1) := by
    calc n < 2 ^ n := Nat.lt_two_pow n
      _ ≤ 128 ^ n := Nat.pow_le_pow_left (by norm_num) n
      _ ≤ 128 ^ (n + 1) := Nat.pow_le_pow_right (by norm_num) (Nat.le_succ n)
  exact decVarint_varintGo n n rest h

theorem decVarint_varint_nil (n : ℕ) :
    decVarint (varint n) = some (n, []) := by
  simpa using decVarint_varint n []

theorem readN_append (xs rest : List ℕ) :
    readN xs.length (xs ++ rest) = some (xs, rest) := by
  simp [readN]

theorem readN_self (xs : List ℕ) : readN xs.length xs = some (xs, []) := by
  simpa using readN_append xs []

theorem leVal_fixed64 (n : ℕ) (h : n < 2 ^ 64) : leVal (fixed64 n) = n := by
  simp [leVal, fixed64]
  omega

theorem interpInt64_int64Wire (t : ℤ) (h1 : -2 ^ 63 ≤ t) (h2 : t < 2 ^ 63) :
    interpInt64 (int64Wire t) = t := by
  simp only [interpInt64, int64Wire] at *
  norm_num at *
  split <;> omega


theorem decLabelGo_nil (f : ℕ) (nm vl : List ℕ) :
    decLabelGo (f + 1) nm vl [] = some ⟨nm, vl⟩ := rfl

theorem decLabelGo_cons (f : ℕ) (nm vl : List ℕ) (b : ℕ) (bs : List ℕ) :
    decLabelGo (f + 1) nm vl (b :: bs) =
      match decVarint (b :: bs) with
      | none => none
      | some (tag, rest) =>
          if tag = 10 then
            match decVarint rest with
            | some (len, r2) =>
                match readN len r2 with
                | some (field, r3) => decLabelGo f field vl r3
                | none => none
            | none => none
          else if tag = 18 then
            match decVarint rest with
            | some (len, r2) =>
                match readN len r2 with
                | some (field, r3) => decLabelGo f nm field r3
                | none => none
            | none => none
          else
            match skipField (tag % 8) rest with
            | some r => decLabelGo f nm vl r
            | none => none := rfl

theorem decLabelGo_enc (f : ℕ) (l : WLabel) :
    decLabelGo (f + 3) [] [] (encLabel l) = some l := by
  show decLabelGo (f + 2 + 1) [] [] (encLabel l) = some l
  simp only [encLabel, List.append_assoc, List.cons_append, List.singleton_append]
  rw [decLabelGo_cons]
  simp only [decVarint_cons]
  norm_num
  rw [decVarint_varint]
  simp only []
  rw [readN_append]
  simp only []
  show decLabelGo (f + 1 + 1) l.name [] _ = some l
  rw [decLabelGo_cons]
  simp only [decVarint_cons]
  norm_num
  rw [decVarint_varint]
  simp only []
  rw [readN_self]
  simp only []
  rfl

theorem decLabel_enc (l : WLabel) : decLabel (encLabel l) = some l := by
  have hlen : 2 ≤ (encLabel l).length := by
    simp [encLabel]
    omega
  have hk : (encLabel l).length + 1 = ((encLabel l).length - 2) + 3 := by omega
  rw [decLabel, hk, decLabelGo_enc]

theorem decSampleGo_nil (f : ℕ) (v t : ℕ) :
    decSampleGo (f + 1) v t [] = some ⟨v, interpInt64 t⟩ := rfl

theorem decSampleGo_cons (f : ℕ) (v t b : ℕ) (bs : List ℕ) :
    decSampleGo (f + 1) v t (b :: bs) =
      match decVarint (b :: bs) with
      | none => none
      | some (tag, rest) =>
          if tag = 9 then
            match readN 8 rest with
            | some (field, r) => decSampleGo f (leVal field) t r
            | none => none
          else if tag = 16 then
            match decVarint rest with
            | some (n, r) => decSampleGo f v n r
            | none => none
          else
            match skipField (tag % 8) rest with
            | some r => decSampleGo f v t r
            | none => none := rfl

theorem fixed64_len (n : ℕ) : (fixed64 n).length = 8 := rfl

theorem decSampleGo_enc (f : ℕ) (s : WSample) (h : WFSample s) :
    decSampleGo (f + 3) 0 0 (encSample s) = some s := by
  show decSampleGo (f + 2 + 1) 0 0 (encSample s) = some s
  simp only [encSample, List.append_assoc, List.cons_append, List.singleton_append]
  rw [decSampleGo_cons]
  simp only [decVarint_cons]
  norm_num
  rw [show (8 : ℕ) = (fixed64 s.value).length from rfl, readN_append]
  simp only []
  rw [leVal_fixed64 s.value h.1]
  show decSampleGo (f + 1 + 1) s.value 0 _ = some s
  rw [decSampleGo_cons]
  simp only [decVarint_cons]
  norm_num
  rw [decVarint_varint_nil]
  simp only []
  rw [decSampleGo_nil, interpInt64_int64Wire s.timestamp h.2.1 h.2.2]

theorem decSample_enc (s : WSample) (h : WFSample s) :
    decSample (encSample s) = some s := by
  have hlen : 2 ≤ (encSample s).length := by
    simp [encSample]
    omega
  have hk : (encSample s).length + 1 = ((encSample s).length - 2) + 3 := by omega
  rw [decSample, hk, decSampleGo_enc _ _ h]

theorem decTimeSeriesGo_nil (f : ℕ) (ls : List WLabel) (ss : List WSample) :
    decTimeSeriesGo (f + 1) ls ss [] = some ⟨ls, ss⟩ := rfl

theorem decTimeSeriesGo_cons (f : ℕ) (ls : List WLabel) (ss : List WSample)
    (b : ℕ) (bs : List ℕ) :
    decTimeSeriesGo (f + 1) ls ss (b :: bs) =
      match decVarint (b :: bs) with
      | none => none
      | some (tag, rest) =>
          if tag = 10 then
            match decVarint rest with
            | some (len, r2) =>
                match readN len r2 with
                | some (field, r3) =>
                    match decLabel field with
                    | some l => decTimeSeriesGo f (ls ++ [l]) ss r3
                    | none => none
                | none => none
            | none => none
          else if tag = 18 then
            match decVarint rest with
            | some (len, r2) =>
                match readN len r2 with
                | some (field, r3) =>
                    match decSample field with
                    | some s => decTimeSeriesGo f ls (ss ++ [s]) r3
                    | none => none
                | none => none
            | none => none
          else
            match skipField (tag % 8) rest with
            | some r => decTimeSeriesGo f ls ss r
            | none => none := rfl

theorem decTimeSeriesGo_label_step (f : ℕ) (ls : List WLabel) (ss : List WSample)
    (l : WLabel) (rest : List ℕ) :
    decTimeSeriesGo (f + 1) ls ss
        (10 :: (varint (encLabel l).length ++ (encLabel l ++ rest))) =
      decTimeSeriesGo f (ls ++ [l]) ss rest := by
  rw [decTimeSeriesGo_cons]
  simp only [decVarint_cons]
  norm_num
  rw [decVarint_varint]
  simp only []
  rw [readN_append]
  simp only []
  rw [decLabel_enc]

theorem decTimeSeriesGo_sample_step (f : ℕ) (ls : List WLabel) (ss : List WSample)
    (s : WSample) (h : WFSample s) (rest : List ℕ) :
    decTimeSeriesGo (f + 1) ls ss
        (18 :: (varint (encSample s).length ++ (encSample s ++ rest))) =
      decTimeSeriesGo f ls (ss ++ [s]) rest := by
  rw [decTimeSeriesGo_cons]
  simp only [decVarint_cons]
  norm_num
  rw [decVarint_varint]
  simp only []
  rw [readN_append]
  simp only []
  rw [decSample_enc s h]

theorem decTimeSeriesGo_labels (ls : List WLabel) :
    ∀ (f : ℕ) (acc : List WLabel) (ss : List WSample) (rest : List ℕ),
      decTimeSeriesGo (ls.length + f + 1) acc ss
          ((ls.map encLabelField).flatten ++ rest) =
        decTimeSeriesGo (f + 1) (acc ++ ls) ss rest := by
  induction ls with
  | nil => intro f acc ss rest; simp
  | cons l t ih =>
      intro f acc ss rest
      simp only [List.map_cons, List.flatten_cons, List.append_assoc, List.length_cons]
      rw [show t.length + 1 + f + 1 = (t.length + f + 1) + 1 by omega]
      simp only [encLabelField, List.cons_append, List.append_assoc, List.singleton_append,
        List.nil_append]
      rw [decTimeSeriesGo_label_step, ih]
      simp

theorem decTimeSeriesGo_samples (ss : List WSample) (hss : ∀ x ∈ ss, WFSample x) :
    ∀ (f : ℕ) (ls : List WLabel) (acc : List WSample) (rest : List ℕ),
      decTimeSeriesGo (ss.length + f + 1) ls acc
          ((ss.map encSampleField).flatten ++ rest) =
        decTimeSeriesGo (f + 1) ls (acc ++ ss) rest := by
  induction ss with
  | nil => intro f ls acc rest; simp
  | cons s t ih =>
      intro f ls acc rest
      simp only [List.map_cons, List.flatten_cons, List.append_assoc, List.length_cons]
      rw [show t.length + 1 + f + 1 = (t.length + f + 1) + 1 by omega]
      simp only [encSampleField, List.cons_append, List.append_assoc, List.singleton_append,
        List.nil_append]
      rw [decTimeSeriesGo_sample_step _ _ _ _ (hss s (by simp)),
        ih (fun x hx => hss x (by simp [hx]))]
      simp

theorem length_le_flatten_map {α : Type} (g : α → List ℕ)
    (hg : ∀ x, 1 ≤ (g x).length) (xs : List α) :
    xs.length ≤ ((xs.map g).flatten).length := by
  induction xs with
  | nil => simp
  | cons x t ih =>
      simp only [List.map_cons, List.flatten_cons, List.length_append, List.length_cons]
      have := hg x
      omega

theorem decTimeSeries_enc (t : WTimeSeries) (h : WFTimeSeries t) :
    decTimeSeries (encTimeSeries t) = some t := by
  have h1 : t.labels.length ≤ ((t.labels.map encLabelField).flatten).length :=
    length_le_flatten_map _ (fun l => by simp [encLabelField]) _
  have h2 : t.samples.length ≤ ((t.samples.map encSampleField).flatten).length :=
    length_le_flatten_map _ (fun s => by simp [encSampleField]) _
  have hlen : t.labels.length + t.samples.length ≤ (encTimeSeries t).length := by
    simp only [encTimeSeries, List.length_append]
    omega
  have hk : (encTimeSeries t).length + 1 =
      t.labels.length + (t.samples.length +
        ((encTimeSeries t).length - t.labels.length - t.samples.length)) + 1 := by
    omega
  rw [decTimeSeries, hk]
  rw [show encTimeSeries t = (t.labels.map encLabelField).flatten ++
      ((t.samples.map encSampleField).flatten ++ []) from by simp [encTimeSeries]]
  rw [decTimeSeriesGo_labels t.labels _ [] [] _]
  simp only [List.nil_append]
  rw [decTimeSeriesGo_samples t.samples h.2]
  simp [decTimeSeriesGo_nil]

theorem decWriteRequestGo_nil (f : ℕ) (ts : List WTimeSeries) :
    decWriteRequestGo (f + 1) ts [] = some ⟨ts⟩ := rfl

theorem decWriteRequestGo_cons (f : ℕ) (ts : List WTimeSeries) (b : ℕ) (bs : List ℕ) :
    decWriteRequestGo (f + 1) ts (b :: bs) =
      match decVarint (b :: bs) with
      | none => none
      | some (tag, rest) =>
          if tag = 10 then
            match decVarint rest with
            | some (len, r2) =>
                match readN len r2 with
                | some (field, r3) =>
                    match decTimeSeries field with
                    | some t => decWriteRequestGo f (ts ++ [t]) r3
                    | none => none
                | none => none
            | none => none
          else
            match skipField (tag % 8) rest with
            | some r => decWriteRequestGo f ts r
            | none => none := rfl

theorem decWriteRequestGo_step (f : ℕ) (ts : List WTimeSeries) (t : WTimeSeries)
    (h : WFTimeSeries t) (rest : List ℕ) :
    decWriteRequestGo (f + 1) ts
        (10 :: (varint (encTimeSeries t).length ++ (encTimeSeries t ++ rest))) =
      decWriteRequestGo f (ts ++ [t]) rest := by
  rw [decWriteRequestGo_cons]
  simp only [decVarint_cons]
  norm_num
  rw [decVarint_varint]
  simp only []
  rw [readN_append]
  simp only []
  rw [decTimeSeries_enc t h]

theorem decWriteRequestGo_list (ts : List WTimeSeries) (hts : ∀ x ∈ ts, WFTimeSeries x) :
    ∀ (f : ℕ) (acc : List WTimeSeries) (rest : List ℕ),
      decWriteRequestGo (ts.length + f + 1) acc
          ((ts.map encTimeSeriesField).flatten ++ rest) =
        decWriteRequestGo (f + 1) (acc ++ ts) rest := by
  induction ts with
  | nil => intro f acc rest; simp
  | cons t tl ih =>
      intro f acc rest
      simp only [List.map_cons, List.flatten_cons, List.append_assoc, List.length_cons]
      rw [show tl.length + 1 + f + 1 = (tl.length + f + 1) + 1 by omega]
      simp only [encTimeSeriesField, List.cons_append, List.append_assoc,
        List.singleton_append, List.nil_append]
      rw [decWriteRequestGo_step _ _ _ (hts t (by simp)),
        ih (fun x hx => hts x (by simp [hx]))]
      simp

theorem decWriteRequest_enc (w : WWriteRequest) (h : WFWriteRequest w) :
    decWriteRequest (encWriteRequest w) = some w := by
  have h1 : w.timeseries.length ≤ ((w.timeseries.map encTimeSeriesField).flatten).length :=
    length_le_flatten_map _ (fun t => by simp [encTimeSeriesField]) _
  have hlen : w.timeseries.length ≤ (encWriteRequest w).length := by
    simpa [encWriteRequest] using h1
  have hk : (encWriteRequest w).length + 1 =
      w.timeseries.length + ((encWriteRequest w).length - w.timeseries.length) + 1 := by
    omega
  rw [decWriteRequest, hk]
  rw [show encWriteRequest w = (w.timeseries.map encTimeSeriesField).flatten ++ [] from by
    simp [encWriteRequest]]
  rw [decWriteRequestGo_list w.timeseries h]
  simp [decWriteRequestGo_nil]

theorem snappyUncompressGo_nil (f : ℕ) (out : List ℕ) :
    snappyUncompressGo (f + 1) out [] = some out := rfl

theorem snappyUncompressGo_cons (f tag : ℕ) (out rest : List ℕ) :
    snappyUncompressGo (f + 1) out (tag :: rest) =
      (if tag % 4 = 0 then
        if tag / 4 < 60 then
          match readN (tag / 4 + 1) rest with
          | some (lit, r) => snappyUncompressGo f (out ++ lit) r
          | none => none
        else
          match readN (tag / 4 - 59) rest with
          | some (lenBytes, r2) =>
              match readN (leVal lenBytes + 1) r2 with
              | some (lit, r) => snappyUncompressGo f (out ++ lit) r
              | none => none
          | none => none
      else if tag % 4 = 1 then
        match rest with
        | b :: r =>
            if tag / 32 * 256 + b = 0 ∨ out.length < tag / 32 * 256 + b then none
            else snappyUncompressGo f (snappyCopy (tag / 4 % 8 + 4) out (tag / 32 * 256 + b)) r
        | [] => none
      else if tag % 4 = 2 then
        match readN 2 rest with
        | some (offBytes, r) =>
            if leVal offBytes = 0 ∨ out.length < leVal offBytes then none
            else snappyUncompressGo f (snappyCopy (tag / 4 + 1) out (leVal offBytes)) r
        | none => none
      else
        match readN 4 rest with
        | some (offBytes, r) =>
            if leVal offBytes = 0 ∨ out.length < leVal offBytes then none
            else snappyUncompressGo f (snappyCopy (tag / 4 + 1) out (leVal offBytes)) r
        | none => none) := rfl

theorem snappyUncompressGo_lit_step (f : ℕ) (out blk rest : List ℕ)
    (h1 : 1 ≤ blk.length) (h2 : blk.length ≤ 60) :
    snappyUncompressGo (f + 1) out ((blk.length - 1) * 4 :: (blk ++ rest)) =
      snappyUncompressGo f (out ++ blk) rest := by
  have ht : (blk.length - 1) * 4 % 4 = 0 := Nat.mul_mod_left _ 4
  have hd : (blk.length - 1) * 4 / 4 = blk.length - 1 := Nat.mul_div_cancel _ (by norm_num)
  have h60 : blk.length - 1 < 60 := by omega
  have hb1 : blk.length - 1 + 1 = blk.length := by omega
  rw [snappyUncompressGo_cons]
  rw [ht, hd, if_pos rfl, if_pos h60, hb1, readN_append]

theorem snappyLitChunks_zero (bs : List ℕ) : snappyLitChunks 0 bs = [] := rfl

theorem snappyLitChunks_succ_cons (fc : ℕ) (b : ℕ) (tl : List ℕ) :
    snappyLitChunks (fc + 1) (b :: tl) =
      (min 60 (b :: tl).length - 1) * 4 ::
        ((b :: tl).take 60 ++ snappyLitChunks fc ((b :: tl).drop 60)) := rfl

theorem snappyUncompressGo_chunks :
    ∀ (fc : ℕ) (bs : List ℕ), bs.length ≤ fc →
      ∀ (f : ℕ) (out : List ℕ),
        snappyUncompressGo (bs.length + f + 1) out (snappyLitChunks fc bs) =
          some (out ++ bs) := by
  intro fc
  induction fc with
  | zero =>
      intro bs h f out
      have hbs : bs = [] := List.length_eq_zero.mp (Nat.le_zero.mp h)
      subst hbs
      simp [snappyLitChunks_zero, snappyUncompressGo_nil]
  | succ fc ih =>
      intro bs h f out
      match bs with
      | [] => simp [snappyLitChunks, snappyUncompressGo_nil]
      | b :: tl =>
          rw [snappyLitChunks_succ_cons]
          have hmin : min 60 (b :: tl).length = ((b :: tl).take 60).length := by
            simp only [List.length_take, List.length_cons]
            try omega
          have htk1 : 1 ≤ ((b :: tl).take 60).length := by
            simp only [List.length_take, List.length_cons]
            try omega
          have htk60 : ((b :: tl).take 60).length ≤ 60 := by
            simp only [List.length_take, List.length_cons]
            try omega
          rw [hmin]
          rw [show (b :: tl).length + f + 1 = ((b :: tl).length + f - 1 + 1) + 1 by
            simp only [List.length_cons]
            omega]
          rw [snappyUncompressGo_lit_step _ _ _ _ htk1 htk60]
          have hdl : ((b :: tl).drop 60).length ≤ fc := by
            simp only [List.length_drop, List.length_cons]
            simp only [List.length_cons] at h
            omega
          rw [show (b :: tl).length + f - 1 + 1 =
              ((b :: tl).drop 60).length +
                ((b :: tl).length + f - ((b :: tl).drop 60).length - 1) + 1 by
            simp only [List.length_drop, List.length_cons]
            omega]
          rw [ih _ hdl]
          simp [List.append_assoc]

theorem snappyLitChunks_length (fc : ℕ) :
    ∀ bs : List ℕ, bs.length ≤ fc → bs.length ≤ (snappyLitChunks fc bs).length := by
  induction fc with
  | zero =>
      intro bs h
      simp_all [snappyLitChunks_zero]
  | succ fc ih =>
      intro bs h
      match bs with
      | [] => simp
      | b :: tl =>
          rw [snappyLitChunks_succ_cons]
          have hdl : ((b :: tl).drop 60).length ≤ fc := by
            simp only [List.length_drop, List.length_cons]
            simp only [List.length_cons] at h
            omega
          have := ih ((b :: tl).drop 60) hdl
          simp only [List.length_cons, List.length_append, List.length_take,
            List.length_drop] at *
          omega

theorem snappyUncompress_compress (bs : List ℕ) :
    snappyUncompress (snappyCompress bs) = some bs := by
  rw [snappyCompress, snappyUncompress, decVarint_varint]
  simp only []
  have hc : bs.length ≤ (snappyLitChunks bs.length bs).length :=
    snappyLitChunks_length bs.length bs le_rfl
  rw [show (snappyLitChunks bs.length bs).length + 1
      = bs.length + ((snappyLitChunks bs.length bs).length - bs.length) + 1 by omega]
  rw [snappyUncompressGo_chunks bs.length bs le_rfl]
  simp

theorem remoteWriteDecode_encode (w : WWriteRequest) (h : WFWriteRequest w) :
    remoteWriteDecode (remoteWriteEncode w) = some w := by
  rw [remoteWriteEncode, remoteWriteDecode, snappyUncompress_compress]
  simp only []
  rw [decWriteRequest_enc w h]

end Wire

end PromWrite

namespace PromWrite

theorem takeWhile_append_all {p : Char → Bool} :
    ∀ (xs ys : List Char), (∀ c ∈ xs, p c = true) →
      (xs ++ ys).takeWhile p = xs ++ ys.takeWhile p := by
  intro xs ys h
  induction xs with
  | nil => simp
  | cons x t ih =>
      simp only [List.cons_append, List.takeWhile_cons, h x (by simp), List.cons.injEq,
        true_and, if_true]
      exact ih (fun c hc => h c (by simp [hc]))

theorem dropWhile_append_all {p : Char → Bool} :
    ∀ (xs ys : List Char), (∀ c ∈ xs, p c = true) →
      (xs ++ ys).dropWhile p = ys.dropWhile p := by
  intro xs ys h
  induction xs with
  | nil => simp
  | cons x t ih =>
      simp only [List.cons_append, List.dropWhile_cons, h x (by simp), if_true]
      exact ih (fun c hc => h c (by simp [hc]))

theorem takeWhile_cons_neg {p : Char → Bool} {c : Char} (h : p c = false) (l : List Char) :
    (c :: l).takeWhile p = [] := by
  simp [List.takeWhile_cons, h]

theorem dropWhile_cons_neg {p : Char → Bool} {c : Char} (h : p c = false) (l : List Char) :
    (c :: l).dropWhile p = c :: l := by
  simp [List.dropWhile_cons, h]

theorem takeWhile_all {p : Char → Bool} (xs : List Char) (h : ∀ c ∈ xs, p c = true) :
    xs.takeWhile p = xs := by
  simpa using takeWhile_append_all xs [] h

theorem dropWhile_all {p : Char → Bool} (xs : List Char) (h : ∀ c ∈ xs, p c = true) :
    xs.dropWhile p = [] := by
  simpa using dropWhile_append_all xs [] h

end PromWrite
namespace PromWrite

theorem tryPairAt_render (n v rest : List Char) (hn : n ≠ [])
    (hnw : ∀ c ∈ n, isWordChar c = true) (hv : ∀ c ∈ v, c ≠ '"') :
    tryPairAt (n ++ '=' :: '"' :: (v ++ '"' :: rest)) = some (n, v, rest) := by
  unfold tryPairAt
  rw [takeWhile_append_all n _ hnw, dropWhile_append_all n _ hnw]
  rw [takeWhile_cons_neg (by decide), dropWhile_cons_neg (by decide)]
  simp only [List.append_nil, List.isEmpty_iff]
  rw [if_neg (by simp [hn])]
  rw [takeWhile_append_all v _ (fun c hc => by simp [hv c hc]),
    dropWhile_append_all v _ (fun c hc => by simp [hv c hc]),
    takeWhile_cons_neg (by decide), dropWhile_cons_neg (by decide)]
  simp

theorem tryPairAt_nonword {c : Char} (h : isWordChar c = false) (rest : List Char) :
    tryPairAt (c :: rest) = none := by
  unfold tryPairAt
  rw [takeWhile_cons_neg h]
  simp

theorem findPairsGo_nil (f : ℕ) : findPairsGo f [] = [] := by
  cases f <;> rfl

theorem findPairsGo_cons (f : ℕ) (c : Char) (rest : List Char) :
    findPairsGo (f + 1) (c :: rest) =
      match tryPairAt (c :: rest) with
      | some (n, v, r) => (n, v) :: findPairsGo f r
      | none => findPairsGo f rest := rfl

end PromWrite
namespace PromWrite

theorem renderPairs_cons (p : List Char × List Char) (ps : List (List Char × List Char)) :
    renderPairs (p :: ps) =
      renderPair p ++ (if ps.isEmpty then [] else ',' :: renderPairs ps) := rfl

theorem renderPair_no_rbrace (p : List Char × List Char)
    (hw : ∀ c ∈ p.1, isWordChar c = true)
    (hv : ∀ c ∈ p.2, c ≠ '"' ∧ c ≠ '}') :
    ∀ c ∈ renderPair p, ¬(c = '}') := by
  intro c hc he
  subst he
  rcases List.mem_append.mp hc with h1 | h1
  · exact absurd (hw _ h1) (by decide)
  · rcases List.mem_cons.mp h1 with h2 | h2
    · exact absurd h2 (by decide)
    · rcases List.mem_cons.mp h2 with h3 | h3
      · exact absurd h3 (by decide)
      · rcases List.mem_append.mp h3 with h4 | h4
        · exact (hv _ h4).2 rfl
        · exact absurd (List.mem_singleton.mp h4) (by decide)

theorem renderPairs_no_rbrace (l : List (List Char × List Char)) (h : WFPairs l) :
    ∀ c ∈ renderPairs l, ¬(c = '}') := by
  induction l with
  | nil => simp [renderPairs]
  | cons p ps ih =>
      intro c hc he
      subst he
      obtain ⟨hne, hw, hv⟩ := h p (by simp)
      rw [renderPairs_cons] at hc
      rcases List.mem_append.mp hc with h1 | h1
      · exact renderPair_no_rbrace p hw hv _ h1 rfl
      · by_cases hps : ps.isEmpty
        · rw [if_pos hps] at h1
          simp at h1
        · rw [if_neg hps] at h1
          rcases List.mem_cons.mp h1 with h2 | h2
          · exact absurd h2 (by decide)
          · exact ih (fun q hq => h q (by simp [hq])) _ h2 rfl

theorem findPairsGo_brace (g : ℕ) : findPairsGo g ['}'] = [] := by
  match g with
  | 0 => rfl
  | g + 1 =>
      rw [findPairsGo_cons, tryPairAt_nonword (by decide), findPairsGo_nil]

theorem findPairsGo_render :
    ∀ (l : List (List Char × List Char)), WFPairs l →
      ∀ f : ℕ, (renderPairs l ++ ['}']).length ≤ f →
        findPairsGo f (renderPairs l ++ ['}']) = l := by
  intro l
  induction l with
  | nil =>
      intro _ f hf
      simp only [renderPairs, List.nil_append, List.length_cons, List.length_nil] at *
      obtain ⟨g, rfl⟩ : ∃ g, f = g + 1 := ⟨f - 1, by omega⟩
      exact findPairsGo_brace (g + 1)
  | cons p ps ih =>
      intro h f hf
      obtain ⟨hne, hw, hv⟩ := h p (by simp)
      obtain ⟨c, n', hc⟩ : ∃ c n', p.1 = c :: n' := by
        cases hp1 : p.1 with
        | nil => exact absurd hp1 hne
        | cons c n' => exact ⟨c, n', rfl⟩
      have h1 : 1 ≤ p.1.length := by rw [hc]; simp
      by_cases hps : ps.isEmpty
      · have hpsl : ps = [] := List.isEmpty_iff.mp hps
        subst hpsl
        have hshape : renderPairs [p] ++ ['}'] =
            p.1 ++ '=' :: '"' :: (p.2 ++ '"' :: ['}']) := by
          simp [renderPairs, renderPair, List.append_assoc]
        rw [hshape] at hf ⊢
        simp only [List.length_append, List.length_cons] at hf
        obtain ⟨g, rfl⟩ : ∃ g, f = g + 1 := ⟨f - 1, by omega⟩
        rw [hc, List.cons_append, findPairsGo_cons, ← List.cons_append, ← hc,
          tryPairAt_render p.1 p.2 _ hne hw (fun d hd => (hv d hd).1)]
        simp [findPairsGo_brace]
      · have hshape : renderPairs (p :: ps) ++ ['}'] =
            p.1 ++ '=' :: '"' :: (p.2 ++ '"' :: (',' :: (renderPairs ps ++ ['}']))) := by
          rw [renderPairs_cons, if_neg hps]
          simp [renderPair, List.append_assoc]
        rw [hshape] at hf ⊢
        simp only [List.length_append, List.length_cons] at hf
        obtain ⟨g, rfl⟩ : ∃ g, f = g + 2 := ⟨f - 2, by omega⟩
        rw [hc, List.cons_append, show (g : ℕ) + 2 = (g + 1) + 1 from rfl,
          findPairsGo_cons, ← List.cons_append, ← hc,
          tryPairAt_render p.1 p.2 _ hne hw (fun d hd => (hv d hd).1)]
        have hrest := ih (fun q hq => h q (by simp [hq])) g (by
          simp only [List.length_append, List.length_cons]
          omega)
        simp [findPairsGo_cons, tryPairAt_nonword (show isWordChar ',' = false by decide),
          hrest]

theorem findPairs_block (l : List (List Char × List Char)) (h : WFPairs l) :
    findPairs ('{' :: (renderPairs l ++ ['}'])) = l := by
  rw [findPairs]
  simp only [List.length_cons]
  rw [findPairsGo_cons, tryPairAt_nonword (by decide)]
  exact findPairsGo_render l h _ le_rfl

theorem valChar_not_space {c : Char} (h : isValChar c = true) : isSpaceChar c = false := by
  by_contra hsp
  have hsp2 : isSpaceChar c = true := by
    revert hsp
    cases hx : isSpaceChar c <;> simp
  simp only [isSpaceChar, Bool.or_eq_true, decide_eq_true_eq] at hsp2
  rcases hsp2 with ((((h1 | h1) | h1) | h1) | h1) | h1 <;> subst h1 <;>
    exact absurd h (by decide)

theorem wordChar_not_space {c : Char} (h : isWordChar c = true) : isSpaceChar c = false := by
  by_contra hsp
  have hsp2 : isSpaceChar c = true := by
    revert hsp
    cases hx : isSpaceChar c <;> simp
  simp only [isSpaceChar, Bool.or_eq_true, decide_eq_true_eq] at hsp2
  rcases hsp2 with ((((h1 | h1) | h1) | h1) | h1) | h1 <;> subst h1 <;>
    exact absurd h (by decide)

theorem lineMatch_mkLine (name v : List Char)
    (ps : Option (List (List Char × List Char)))
    (hn : name ≠ []) (hnw : ∀ c ∈ name, isWordChar c = true)
    (hps : ∀ l, ps = some l → WFPairs l)
    (hv : v ≠ []) (hvc : ∀ c ∈ v, isValChar c = true) :
    lineMatch (mkLine name ps v) =
      some (name, ps.map (fun l => '{' :: (renderPairs l ++ ['}'])), v) := by
  obtain ⟨vc, vt, hvshape⟩ : ∃ vc vt, v = vc :: vt := by
    cases hx : v with
    | nil => exact absurd hx hv
    | cons vc vt => exact ⟨vc, vt, rfl⟩
  have hvhead : isSpaceChar vc = false :=
    valChar_not_space (hvc vc (by simp [hvshape]))
  have hdw : List.dropWhile isSpaceChar (' ' :: v) = v := by
    rw [List.dropWhile_cons, if_pos (show isSpaceChar ' ' = true from rfl)]
    rw [hvshape, dropWhile_cons_neg hvhead]
  have htw : List.takeWhile isValChar v = v := takeWhile_all v hvc
  cases ps with
  | none =>
      unfold mkLine lineMatch
      simp only [List.append_nil, Option.map_none]
      rw [takeWhile_append_all name _ hnw, dropWhile_append_all name _ hnw,
        takeWhile_cons_neg (by decide : isWordChar ' ' = false),
        dropWhile_cons_neg (by decide : isWordChar ' ' = false)]
      simp only [List.append_nil, List.isEmpty_iff]
      rw [if_neg hn]
      simp only [if_neg (by decide : ¬(' ' = '{'))]
      rw [if_neg (by simp [show isSpaceChar ' ' = true from rfl]), hdw, htw, if_neg hv]
      rfl
  | some l =>
      have hlp : WFPairs l := hps l rfl
      have hnb : ∀ c ∈ renderPairs l, (!(c = '}')) = true := by
        intro c hc
        simpa using renderPairs_no_rbrace l hlp c hc
      unfold mkLine lineMatch
      rw [show (name ++ ('{' :: (renderPairs l ++ ['}'])) ++ ' ' :: v)
          = name ++ ('{' :: ((renderPairs l ++ ['}']) ++ ' ' :: v)) from by
        simp [List.append_assoc]]
      rw [takeWhile_append_all name _ hnw, dropWhile_append_all name _ hnw,
        takeWhile_cons_neg (by decide : isWordChar '{' = false),
        dropWhile_cons_neg (by decide : isWordChar '{' = false)]
      simp only [List.append_nil, List.isEmpty_iff]
      rw [if_neg hn]
      simp only [if_true]
      rw [show ((renderPairs l ++ ['}']) ++ ' ' :: v)
          = renderPairs l ++ ('}' :: ' ' :: v) from by simp [List.append_assoc]]
      rw [takeWhile_append_all _ _ hnb, dropWhile_append_all _ _ hnb,
        takeWhile_cons_neg (by decide), dropWhile_cons_neg (by decide)]
      simp only [List.append_nil, if_pos (rfl : '}' = '}')]
      simp only [if_true]
      rw [if_neg (by simp [show isSpaceChar ' ' = true from rfl]), hdw, htw, if_neg hv]
      rfl

theorem stringMk_eq_empty_iff (cs : List Char) : String.mk cs = "" ↔ cs = [] := by
  constructor
  · intro h
    have := congrArg String.data h
    simpa using this
  · intro h
    subst h
    rfl

theorem filterMap_pairs (l : List (List Char × List Char))
    (hnames : ∀ p ∈ l, p.1 ≠ []) :
    l.filterMap (fun p =>
        if String.mk p.1 ≠ "" ∧ String.mk p.2 ≠ "" then
          some (⟨.vstr (String.mk p.1), .vstr (String.mk p.2)⟩ : JLabel)
        else none) =
      (l.filter (fun p => !p.2.isEmpty)).map
        (fun p => ⟨.vstr (String.mk p.1), .vstr (String.mk p.2)⟩) := by
  induction l with
  | nil => rfl
  | cons p t ih =>
      have hn1 : String.mk p.1 ≠ "" := by
        rw [ne_eq, stringMk_eq_empty_iff]
        exact hnames p (by simp)
      by_cases h2 : p.2 = []
      · have hcond : ¬(String.mk p.1 ≠ "" ∧ String.mk p.2 ≠ "") := by
          simp [stringMk_eq_empty_iff, h2]
        rw [List.filterMap_cons, List.filter_cons]
        simp only [if_neg hcond, h2]
        rw [ih (fun q hq => hnames q (by simp [hq]))]
        simp
      · have hcond : String.mk p.1 ≠ "" ∧ String.mk p.2 ≠ "" :=
          ⟨hn1, by rwa [ne_eq, stringMk_eq_empty_iff]⟩
        have hflt : (!p.2.isEmpty) = true := by
          simp [List.isEmpty_iff, h2]
        rw [List.filterMap_cons, List.filter_cons]
        simp only [if_pos hcond, hflt, if_true, List.map_cons]
        rw [ih (fun q hq => hnames q (by simp [hq]))]

theorem scrapeLine_mkLine (ts : ℤ) (name v : List Char)
    (ps : Option (List (List Char × List Char)))
    (hn : name ≠ []) (hnw : ∀ c ∈ name, isWordChar c = true)
    (hps : ∀ l, ps = some l → WFPairs l)
    (hv : v ≠ []) (hvc : ∀ c ∈ v, isValChar c = true) :
    scrapeLine ts (mkLine name ps v) =
      some ⟨⟨.vstr "__name__", .vstr (String.mk name)⟩ ::
          (match ps with
           | none => []
           | some l => (l.filter (fun p => !p.2.isEmpty)).map
               (fun p => ⟨.vstr (String.mk p.1), .vstr (String.mk p.2)⟩)),
        [⟨.vnum (parseFloatDec v), .vnum (.num (ts : ℚ))⟩]⟩ := by
  have hcnd : String.mk name ≠ "" ∧ String.mk v ≠ "" :=
    ⟨by rw [ne_eq, stringMk_eq_empty_iff]; exact hn,
     by rw [ne_eq, stringMk_eq_empty_iff]; exact hv⟩
  rw [scrapeLine, lineMatch_mkLine name v ps hn hnw hps hv hvc]
  cases ps with
  | none => simp [if_pos hcnd, scrapeLabels]
  | some l =>
      have hlp : WFPairs l := hps l rfl
      have hfm := filterMap_pairs l (fun p hp => (hlp p hp).1)
      simp [if_pos hcnd, scrapeLabels, findPairs_block l hlp, hfm]

theorem scrapeLine_shape (ts : ℤ) (cs : List Char) (t : JTimeSeries)
    (h : scrapeLine ts cs = some t) :
    (∃ nm : String, t.labels.head? = some ⟨.vstr "__name__", .vstr nm⟩) ∧
    (∀ lb ∈ t.labels, (∃ s1, lb.name = .vstr s1) ∧ ∃ s2, lb.value = .vstr s2) ∧
    ∃ n : JSNum, t.samples = [⟨.vnum n, .vnum (.num (ts : ℚ))⟩] := by
  rw [scrapeLine] at h
  cases hlm : lineMatch cs with
  | none => rw [hlm] at h; exact absurd h (by simp)
  | some g =>
      obtain ⟨nm, bl, v⟩ := g
      rw [hlm] at h
      simp only [] at h
      by_cases hc : String.mk nm ≠ "" ∧ String.mk v ≠ ""
      · rw [if_pos hc] at h
        have ht := (Option.some.injEq _ _).mp h
        subst ht
        refine ⟨⟨String.mk nm, by simp [scrapeLabels]⟩, ?_, ⟨parseFloatDec v, rfl⟩⟩
        intro lb hlb
        simp only [scrapeLabels, List.mem_cons] at hlb
        rcases hlb with hlb | hlb
        · subst hlb
          exact ⟨⟨"__name__", rfl⟩, ⟨String.mk nm, rfl⟩⟩
        · cases bl with
          | none => simp at hlb
          | some block =>
              simp only [List.mem_filterMap] at hlb
              obtain ⟨p, _, hp⟩ := hlb
              by_cases hpc : String.mk p.1 ≠ "" ∧ String.mk p.2 ≠ ""
              · rw [if_pos hpc] at hp
                cases hp
                exact ⟨⟨String.mk p.1, rfl⟩, ⟨String.mk p.2, rfl⟩⟩
              · rw [if_neg hpc] at hp
                exact absurd hp (by simp)
      · rw [if_neg hc] at h
        exact absurd h (by simp)

theorem firstErr_eq_none {α : Type} (f : α → Option String) (l : List α)
    (h : ∀ x ∈ l, f x = none) : firstErr f l = none := by
  induction l with
  | nil => rfl
  | cons x t ih =>
      rw [firstErr]
      rw [h x (by simp)]
      exact ih (fun y hy => h y (by simp [hy]))

theorem firstErr_eq_none_iff {α : Type} (f : α → Option String) (l : List α) :
    firstErr f l = none ↔ ∀ x ∈ l, f x = none := by
  constructor
  · intro h x hx
    induction l with
    | nil => simp at hx
    | cons y t ih =>
        rw [firstErr] at h
        cases hf : f y with
        | some e => rw [hf] at h; simp at h
        | none =>
            rw [hf] at h
            rcases List.mem_cons.mp hx with hx1 | hx1
            · subst hx1; exact hf
            · exact ih h hx1
  · exact firstErr_eq_none f l

theorem verifyLabel_vstr (s1 s2 : String) :
    verifyLabel ⟨.vstr s1, .vstr s2⟩ = none := rfl

theorem verifySample_scrape (n : JSNum) (ts : ℤ) :
    verifySample ⟨.vnum n, .vnum (.num (ts : ℚ))⟩ = none := by
  rw [verifySample]
  simp [isNumberVal, isIntegerVal, Rat.den_intCast]

theorem verifyTimeSeries_scrape (ts : ℤ) (cs : List Char) (t : JTimeSeries)
    (h : scrapeLine ts cs = some t) : verifyTimeSeries t = none := by
  obtain ⟨_, hlabs, ⟨n, hsmp⟩⟩ := scrapeLine_shape ts cs t h
  rw [verifyTimeSeries]
  rw [firstErr_eq_none verifyLabel t.labels (fun lb hlb => by
    obtain ⟨⟨s1, h1⟩, ⟨s2, h2⟩⟩ := hlabs lb hlb
    cases lb
    simp only at h1 h2
    subst h1 h2
    rfl)]
  rw [hsmp]
  exact firstErr_eq_none _ _ (fun x hx => by
    rcases List.mem_singleton.mp hx with rfl
    exact verifySample_scrape n ts)

theorem verifyLabel_none_iff (l : JLabel) :
    verifyLabel l = none ↔ (isStringVal l.name && isStringVal l.value) = true := by
  rw [verifyLabel]
  cases h1 : isStringVal l.name <;> cases h2 : isStringVal l.value <;> simp

theorem verifySample_none_iff (s : JSample) :
    verifySample s = none ↔ (isNumberVal s.value && isIntegerVal s.timestamp) = true := by
  rw [verifySample]
  cases h1 : isNumberVal s.value <;> cases h2 : isIntegerVal s.timestamp <;> simp

theorem verifyTimeSeries_none_iff (t : JTimeSeries) :
    verifyTimeSeries t = none ↔
      ((t.labels.all fun l => isStringVal l.name && isStringVal l.value) &&
       (t.samples.all fun s => isNumberVal s.value && isIntegerVal s.timestamp)) = true := by
  rw [verifyTimeSeries]
  cases hl : firstErr verifyLabel t.labels with
  | some e =>
      simp only []
      constructor
      · intro h; simp at h
      · intro h
        have h1 := (List.all_eq_true.mp (by
          have := (Bool.and_eq_true _ _).mp h
          exact this.1))
        have : firstErr verifyLabel t.labels = none :=
          firstErr_eq_none _ _ (fun x hx => (verifyLabel_none_iff x).mpr (h1 x hx))
        rw [hl] at this
        simp at this
  | none =>
      simp only []
      have h1 : ∀ x ∈ t.labels, verifyLabel x = none :=
        (firstErr_eq_none_iff _ _).mp hl
      constructor
      · intro h
        refine (Bool.and_eq_true _ _).mpr ⟨?_, ?_⟩
        · exact List.all_eq_true.mpr (fun x hx => (verifyLabel_none_iff x).mp (h1 x hx))
        · exact List.all_eq_true.mpr (fun x hx =>
            (verifySample_none_iff x).mp ((firstErr_eq_none_iff _ _).mp h x hx))
      · intro h
        have h2 := ((Bool.and_eq_true _ _).mp h).2
        exact firstErr_eq_none _ _ (fun x hx =>
          (verifySample_none_iff x).mpr (List.all_eq_true.mp h2 x hx))

theorem verifyWriteRequest_none_iff (w : JWriteRequest) :
    verifyWriteRequest w = none ↔ typesOk w = true := by
  rw [verifyWriteRequest, typesOk]
  constructor
  · intro h
    exact List.all_eq_true.mpr (fun t ht =>
      (verifyTimeSeries_none_iff t).mp ((firstErr_eq_none_iff _ _).mp h t ht))
  · intro h
    exact firstErr_eq_none _ _ (fun t ht =>
      (verifyTimeSeries_none_iff t).mpr (List.all_eq_true.mp h t ht))

theorem encodeStep_ok_iff (w : JWriteRequest) :
    encodeStep w = .ok w ↔ typesOk w = true := by
  rw [encodeStep]
  cases h : verifyWriteRequest w with
  | some e =>
      simp only []
      constructor
      · intro hh; simp at hh
      · intro hh
        rw [← verifyWriteRequest_none_iff] at hh
        rw [h] at hh
        simp at hh
  | none =>
      simp only []
      rw [← verifyWriteRequest_none_iff, h]
      simp

theorem scrapeLines_mem (ts : ℤ) (ls : List (List Char)) (t : JTimeSeries)
    (h : t ∈ (scrapeLines ts ls).timeseries) : ∃ cs, scrapeLine ts cs = some t := by
  rw [scrapeLines] at h
  simp only [List.mem_filterMap] at h
  obtain ⟨cs, _, hcs⟩ := h
  exact ⟨cs, hcs⟩

theorem verifyWriteRequest_scrapeLines (ts : ℤ) (ls : List (List Char)) :
    verifyWriteRequest (scrapeLines ts ls) = none := by
  rw [verifyWriteRequest]
  exact firstErr_eq_none _ _ (fun t ht => by
    obtain ⟨cs, hcs⟩ := scrapeLines_mem ts ls t ht
    exact verifyTimeSeries_scrape ts cs t hcs)

theorem scrapeLines_skip (ts : ℤ) (l : List Char) (lines : List (List Char))
    (h : scrapeLine ts l = none ∨ goodLine l = false) :
    scrapeLines ts (l :: lines) = scrapeLines ts lines := by
  rw [scrapeLines, scrapeLines, List.filter_cons]
  by_cases hg : goodLine l
  · rw [if_pos hg, List.filterMap_cons]
    rcases h with h | h
    · rw [h]
    · rw [h] at hg; simp at hg
  · rw [if_neg hg]

/-- C1: a validated (well-formed) `WriteRequest`, serialized and
snappy-compressed by the encoder, decompresses and deserializes back to
exactly the same request: same number of timeseries, identical labels
and sample values, in input order. -/
theorem claim_C1 (w : Wire.WWriteRequest) (h : Wire.WFWriteRequest w) :
    Wire.remoteWriteDecode (Wire.remoteWriteEncode w) = some w :=
  Wire.remoteWriteDecode_encode w h

theorem claim_C1_witness :
    Wire.WFWriteRequest wireWitness ∧
      Wire.remoteWriteDecode (Wire.remoteWriteEncode wireWitness) = some wireWitness :=
  ⟨(by
    unfold Wire.WFWriteRequest Wire.WFTimeSeries Wire.WFLabel Wire.WFSample Wire.WFBytes
    decide),
   claim_C1 wireWitness (by
    unfold Wire.WFWriteRequest Wire.WFTimeSeries Wire.WFLabel Wire.WFSample Wire.WFBytes
    decide)⟩

/-- C2 as stated is false: `WriteRequest.verify` checks field types
only; a `TimeSeries` with empty `labels` and `samples` arrays passes
validation and is encoded, with no error surfaced. -/
theorem claim_C2_counterexample :
    verifyWriteRequest ⟨[⟨[], []⟩]⟩ = none ∧
      encodeStep ⟨[⟨[], []⟩]⟩ = .ok ⟨[⟨[], []⟩]⟩ :=
  ⟨rfl, rfl⟩

/-- C2 (amended): the pre-encode validation step rejects exactly
type-level schema violations (non-string label fields, non-number
sample value, non-integer timestamp); in particular a series with empty
label or sample sequences passes and is encoded. -/
theorem claim_C2 (w : JWriteRequest) : encodeStep w = .ok w ↔ typesOk w = true :=
  encodeStep_ok_iff w

/-- C3: a line of the grammar `name{l1="v1",…} value` (block optional)
scrapes to exactly one `TimeSeries` whose first label is `__name__`
with the metric name, carrying one sample with the `parseFloat` of the
captured value and the scrape's shared capture timestamp; every sample
of every series of one scrape carries that same timestamp. -/
theorem claim_C3 (ts : ℤ) (name v : List Char)
    (ps : Option (List (List Char × List Char)))
    (hn : name ≠ []) (hnw : ∀ c ∈ name, isWordChar c = true)
    (hps : ∀ l, ps = some l → WFPairs l)
    (hv : v ≠ []) (hvc : ∀ c ∈ v, isValChar c = true) :
    (∃ t, scrapeLine ts (mkLine name ps v) = some t ∧
      t.labels.head? = some ⟨.vstr "__name__", .vstr (String.mk name)⟩ ∧
      t.samples = [⟨.vnum (parseFloatDec v), .vnum (.num (ts : ℚ))⟩]) ∧
    ∀ (lines : List (List Char)) (t : JTimeSeries) (s : JSample),
      t ∈ (scrapeLines ts lines).timeseries → s ∈ t.samples →
        s.timestamp = .vnum (.num (ts : ℚ)) := by
  constructor
  · refine ⟨_, scrapeLine_mkLine ts name v ps hn hnw hps hv hvc, by simp, rfl⟩
  · intro lines t s ht hs
    obtain ⟨cs, hcs⟩ := scrapeLines_mem ts lines t ht
    obtain ⟨_, _, ⟨n, hsmp⟩⟩ := scrapeLine_shape ts cs t hcs
    rw [hsmp] at hs
    rcases List.mem_singleton.mp hs with rfl
    rfl

theorem claim_C3_witness :
    (∃ t, scrapeLine 99 (mkLine ['d', 'c'] (some [(['s'], ['v'])]) ['4', '2']) = some t ∧
      t.labels.head? = some ⟨.vstr "__name__", .vstr (String.mk ['d', 'c'])⟩ ∧
      t.samples = [⟨.vnum (parseFloatDec ['4', '2']), .vnum (.num (99 : ℚ))⟩]) ∧
    ∀ (lines : List (List Char)) (t : JTimeSeries) (s : JSample),
      t ∈ (scrapeLines 99 lines).timeseries → s ∈ t.samples →
        s.timestamp = .vnum (.num (99 : ℚ)) :=
  claim_C3 99 ['d', 'c'] ['4', '2'] (some [(['s'], ['v'])])
    (by decide) (by decide)
    (by
      intro l hl
      have h2 : [(['s'], ['v'])] = l := by injection hl
      subst h2
      unfold WFPairs
      decide)
    (by decide) (by decide)

/-- C4 as stated is false: on `m{a="",b="y"} 5` the label scan finds
the pair `a=""`, but the JS truthiness check drops it, so the produced
series omits a scraped label. -/
theorem claim_C4_counterexample :
    findPairs ['{', 'a', '=', '"', '"', ',', 'b', '=', '"', 'y', '"', '}'] =
      [(['a'], []), (['b'], ['y'])] ∧
    scrapeLine 0 ['m', '{', 'a', '=', '"', '"', ',', 'b', '=', '"', 'y', '"', '}', ' ', '5'] =
      some ⟨[⟨.vstr "__name__", .vstr "m"⟩, ⟨.vstr "b", .vstr "y"⟩],
        [⟨.vnum (.num 5), .vnum (.num 0)⟩]⟩ := by
  exact ⟨by decide, by decide⟩

/-- C4 (amended): of the pairs scraped from the label block, exactly
those with a non-empty value appear, in scan order, after the
synthesized `__name__` label; pairs whose value is the empty string are
dropped by the `if (labelName && labelValue)` truthiness check. -/
theorem claim_C4 (ts : ℤ) (name v : List Char)
    (l : List (List Char × List Char))
    (hn : name ≠ []) (hnw : ∀ c ∈ name, isWordChar c = true)
    (hl : WFPairs l)
    (hv : v ≠ []) (hvc : ∀ c ∈ v, isValChar c = true) :
    scrapeLine ts (mkLine name (some l) v) =
      some ⟨⟨.vstr "__name__", .vstr (String.mk name)⟩ ::
          (l.filter (fun p => !p.2.isEmpty)).map
            (fun p => ⟨.vstr (String.mk p.1), .vstr (String.mk p.2)⟩),
        [⟨.vnum (parseFloatDec v), .vnum (.num (ts : ℚ))⟩]⟩ := by
  have h := scrapeLine_mkLine ts name v (some l) hn hnw
    (fun l2 hl2 => by
      have h2 : l = l2 := by injection hl2
      subst h2
      exact hl) hv hvc
  simpa using h

theorem claim_C4_witness :
    scrapeLine 7 (mkLine ['m'] (some [(['a'], []), (['b'], ['y'])]) ['5']) =
      some ⟨[⟨.vstr "__name__", .vstr (String.mk ['m'])⟩,
             ⟨.vstr (String.mk ['b']), .vstr (String.mk ['y'])⟩],
        [⟨.vnum (parseFloatDec ['5']), .vnum (.num (7 : ℚ))⟩]⟩ := by
  have h := claim_C4 7 ['m'] ['5'] [(['a'], []), (['b'], ['y'])]
    (by decide) (by decide)
    (by unfold WFPairs; decide)
    (by decide) (by decide)
  rw [h]
  rfl

/-- C5 as stated is false for exponent notation: `x 1e5` does not match
the spec's line grammar, yet the scraper's unanchored regex matches the
mantissa prefix and produces a series with value `1` instead of
skipping the line. -/
theorem claim_C5_counterexample :
    specGrammarLine ['x', ' ', '1', 'e', '5'] = false ∧
      scrapeLine 0 ['x', ' ', '1', 'e', '5'] =
        some ⟨[⟨.vstr "__name__", .vstr "x"⟩], [⟨.vnum (.num 1), .vnum (.num 0)⟩]⟩ := by
  exact ⟨by decide, by decide⟩

/-- C5 (amended): a line on which the scrape regex fails — including
comment lines, which the filter removes, and negative values — yields no
series and no error, and the remaining lines are still processed; but a
line whose value merely begins with digits (e.g. exponent notation)
does match and is not skipped. -/
theorem claim_C5 :
    (∀ (ts : ℤ) (l : List Char) (lines : List (List Char)),
      scrapeLine ts l = none ∨ goodLine l = false →
        scrapeLines ts (l :: lines) = scrapeLines ts lines) ∧
    ∀ cs : List Char, goodLine ('#' :: cs) = false := by
  refine ⟨scrapeLines_skip, ?_⟩
  intro cs
  rw [goodLine]
  simp

theorem claim_C5_witness :
    scrapeLines 3 (['x', ' ', '-', '1'] :: [['m', ' ', '2']]) =
      scrapeLines 3 [['m', ' ', '2']] ∧
    goodLine ('#' :: [' ', 'c']) = false :=
  ⟨claim_C5.1 3 ['x', ' ', '-', '1'] [['m', ' ', '2']] (Or.inl (by decide)),
   claim_C5.2 [' ', 'c']⟩

/-- C6: on both write paths, for every transport outcome (success,
non-2xx, connection failure, timeout) and every encode outcome
(including a thrown validation error), the generate-and-send entry
point returns normally, makes at most one HTTP attempt, and logs rather
than propagates any failure. -/
theorem claim_C6 (baseUrl : String) (enc : EncodeOutcome) (tr : Transport)
    (push : PushOutcome) :
    (generateAndSendMetrics baseUrl enc tr).returnedNormally = true ∧
    (generateAndSendMetrics baseUrl enc tr).requests.length ≤ 1 ∧
    (simpleGenerateAndSendMetrics push).returnedNormally = true ∧
    ((∀ msg, enc = .throws msg → (generateAndSendMetrics baseUrl enc tr).errorLogged = true) ∧
     (tr.isSuccess = false → enc = .ok →
       (generateAndSendMetrics baseUrl enc tr).errorLogged = true) ∧
     ∀ msg, push = .throws msg → (simpleGenerateAndSendMetrics push).errorLogged = true) := by
  cases enc <;> cases tr <;> cases push <;>
    simp [generateAndSendMetrics, sendMetricsToPrometheus,
      simpleGenerateAndSendMetrics, simpleSendMetricsToPrometheus, Transport.isSuccess]

theorem claim_C6_witness :
    (generateAndSendMetrics "http://localhost:9090" (.throws "Protobuf validation failed: x")
        .timeout).returnedNormally = true ∧
    (generateAndSendMetrics "http://localhost:9090" (.throws "Protobuf validation failed: x")
        .timeout).requests.length ≤ 1 ∧
    (simpleGenerateAndSendMetrics (.throws "network")).returnedNormally = true ∧
    ((∀ msg, (EncodeOutcome.throws "Protobuf validation failed: x") = .throws msg →
        (generateAndSendMetrics "http://localhost:9090"
          (.throws "Protobuf validation failed: x") .timeout).errorLogged = true) ∧
     (Transport.timeout.isSuccess = false →
       (EncodeOutcome.throws "Protobuf validation failed: x") = .ok →
       (generateAndSendMetrics "http://localhost:9090"
         (.throws "Protobuf validation failed: x") .timeout).errorLogged = true) ∧
     ∀ msg, (PushOutcome.throws "network") = .throws msg →
       (simpleGenerateAndSendMetrics (.throws "network")).errorLogged = true) :=
  claim_C6 "http://localhost:9090" (.throws "Protobuf validation failed: x") .timeout
    (.throws "network")

/-- C7: on the full path every write issues exactly one POST to
`{base}/api/v1/write` with exactly the three protocol headers and a
5000 ms timeout; a non-2xx response is logged and never retried — at
most one request per invocation, exactly one when the encode step
succeeded. -/
theorem claim_C7 (baseUrl : String) (enc : EncodeOutcome) (tr : Transport) :
    (sendMetricsToPrometheus baseUrl enc tr).requests.length ≤ 1 ∧
    (∀ r ∈ (sendMetricsToPrometheus baseUrl enc tr).requests,
      r.method = "POST" ∧
      r.url = baseUrl ++ "/api/v1/write" ∧
      r.headers = [("Content-Type", "application/x-protobuf"),
                   ("Content-Encoding", "snappy"),
                   ("X-Prometheus-Remote-Write-Version", "0.1.0")] ∧
      r.timeoutMs = 5000) ∧
    (enc = .ok → (sendMetricsToPrometheus baseUrl enc tr).requests =
      [writeRequestConfig baseUrl]) ∧
    ∀ status, enc = .ok → tr = .httpError status →
      (sendMetricsToPrometheus baseUrl enc tr).requests.length = 1 ∧
      (sendMetricsToPrometheus baseUrl enc tr).errorLogged = true := by
  cases enc <;> cases tr <;>
    simp [sendMetricsToPrometheus, writeRequestConfig, Transport.isSuccess]

theorem claim_C7_witness :
    (sendMetricsToPrometheus "http://localhost:9090" .ok (.httpError 400)).requests.length ≤ 1 ∧
    (∀ r ∈ (sendMetricsToPrometheus "http://localhost:9090" .ok (.httpError 400)).requests,
      r.method = "POST" ∧
      r.url = "http://localhost:9090" ++ "/api/v1/write" ∧
      r.headers = [("Content-Type", "application/x-protobuf"),
                   ("Content-Encoding", "snappy"),
                   ("X-Prometheus-Remote-Write-Version", "0.1.0")] ∧
      r.timeoutMs = 5000) ∧
    (EncodeOutcome.ok = .ok →
      (sendMetricsToPrometheus "http://localhost:9090" .ok (.httpError 400)).requests =
        [writeRequestConfig "http://localhost:9090"]) ∧
    (∀ status, EncodeOutcome.ok = .ok → Transport.httpError 400 = .httpError status →
      (sendMetricsToPrometheus "http://localhost:9090" .ok (.httpError 400)).requests.length = 1 ∧
      (sendMetricsToPrometheus "http://localhost:9090" .ok (.httpError 400)).errorLogged = true) :=
  claim_C7 "http://localhost:9090" .ok (.httpError 400)

/-- C8: a failed health check (non-2xx or unreachable) exits the run
with code 1 before any write is attempted; a healthy check always
completes the run with exit code 0, including when the send itself
failed and was merely logged. -/
theorem claim_C8 (health : HealthOutcome) (enc : EncodeOutcome) (tr : Transport) :
    (getPrometheusStatus health = false →
      mainRun health enc tr = ⟨1, false⟩) ∧
    (getPrometheusStatus health = true →
      (mainRun health enc tr).exitCode = 0 ∧ (mainRun health enc tr).writeAttempted = true) := by
  cases health <;>
    simp [getPrometheusStatus, mainRun]

theorem claim_C8_witness :
    (getPrometheusStatus (.non2xx 503) = false →
      mainRun (.non2xx 503) .ok .timeout = ⟨1, false⟩) ∧
    (getPrometheusStatus (.non2xx 503) = true →
      (mainRun (.non2xx 503) .ok .timeout).exitCode = 0 ∧
      (mainRun (.non2xx 503) .ok .timeout).writeAttempted = true) :=
  claim_C8 (.non2xx 503) .ok .timeout

/-- C9: a `success` response with an empty result renders the "no data
found" notice rather than an error; a failed query GET is reported for
that query alone, and every query of the fixed sequence is still
processed (one report per query, each depending only on its own
outcome). -/
theorem claim_C9 :
    queryPrometheus (.response "success" none []) = .noData ∧
    ∀ outs : List QueryHttp,
      (runQueries outs).length = outs.length ∧
      ∀ (i : ℕ) (hi : i < outs.length) (hi2 : i < (runQueries outs).length),
        (runQueries outs).get ⟨i, hi2⟩ = queryPrometheus (outs.get ⟨i, hi⟩) ∧
        ∀ msg, outs.get ⟨i, hi⟩ = .failure msg →
          (runQueries outs).get ⟨i, hi2⟩ = .requestError msg := by
  refine ⟨rfl, ?_⟩
  intro outs
  refine ⟨by simp [runQueries], ?_⟩
  intro i hi hi2
  have hg : (runQueries outs).get ⟨i, hi2⟩ = queryPrometheus (outs.get ⟨i, hi⟩) := by
    simp [runQueries]
  refine ⟨hg, ?_⟩
  intro msg hmsg
  rw [hg, hmsg]
  rfl

theorem claim_C9_witness :
    (runQueries [.failure "connect ECONNREFUSED", .response "success" none []]).length = 2 ∧
    (runQueries [.failure "connect ECONNREFUSED", .response "success" none []]).get
        ⟨0, by decide⟩ = .requestError "connect ECONNREFUSED" ∧
    (runQueries [.failure "connect ECONNREFUSED", .response "success" none []]).get
        ⟨1, by decide⟩ = .noData := by
  refine ⟨(claim_C9.2 _).1, ?_, ?_⟩
  · exact ((claim_C9.2 _).2 0 (by decide) (by decide)).2 _ rfl
  · have h := ((claim_C9.2 [.failure "connect ECONNREFUSED",
      .response "success" none []]).2 1 (by decide) (by decide)).1
    rw [h]
    exact claim_C9.1

/-- C10: every `WriteRequest` the scraper assembles passes the
pre-encode validation — labels are string/string with `__name__`
synthesized first, each series has exactly one sample whose value is a
JS number and whose timestamp is the integer capture time — so the
thrown `Protobuf validation failed` branch is unreachable on
scraper-produced input. -/
theorem claim_C10 (ts : ℤ) (text : List Char) :
    verifyWriteRequest (metricsToRemoteWrite ts text) = none ∧
    encodeStep (metricsToRemoteWrite ts text) = .ok (metricsToRemoteWrite ts text) ∧
    ∀ t ∈ (metricsToRemoteWrite ts text).timeseries,
      t.labels ≠ [] ∧
      (∃ nm, t.labels.head? = some ⟨.vstr "__name__", .vstr nm⟩) ∧
      (∀ lb ∈ t.labels, (∃ s1, lb.name = .vstr s1) ∧ ∃ s2, lb.value = .vstr s2) ∧
      ∃ n : JSNum, t.samples = [⟨.vnum n, .vnum (.num (ts : ℚ))⟩] := by
  have hv : verifyWriteRequest (metricsToRemoteWrite ts text) = none := by
    rw [metricsToRemoteWrite]
    exact verifyWriteRequest_scrapeLines ts (splitLines text)
  refine ⟨hv, ?_, ?_⟩
  · rw [encodeStep, hv]
  · intro t ht
    rw [metricsToRemoteWrite] at ht
    obtain ⟨cs, hcs⟩ := scrapeLines_mem ts (splitLines text) t ht
    obtain ⟨⟨nm, hhd⟩, hlabs, hsmp⟩ := scrapeLine_shape ts cs t hcs
    refine ⟨?_, ⟨nm, hhd⟩, hlabs, hsmp⟩
    intro hnil
    rw [hnil] at hhd
    simp at hhd

end PromWrite
